import Mathlib

/- Verification development for the myth-extraction pipeline in parse-data.js.
   Strings are modelled as lists of characters (`L`); a JS string's `.length`
   is modelled as the list length (the corpus and all constants are in the
   Basic Multilingual Plane, where UTF-16 code-unit count equals code-point
   count for the characters involved).  All functions are translated from the
   source file; regular-expression tests are expanded into explicit scanners
   that mimic the (deterministic) behaviour of the concrete patterns. -/

abbrev L := List Char

/-- A single newline character. -/
def nlC : Char := Char.ofNat 10

/-- Character class of the JS `\s` pattern (members relevant to this corpus). -/
def isWS (c : Char) : Bool :=
  c = ' ' || c = Char.ofNat 9 || c = Char.ofNat 10 || c = Char.ofNat 13 ||
  c = Char.ofNat 11 || c = Char.ofNat 12 || c = Char.ofNat 160

def isDigitC (c : Char) : Bool := 48 ≤ c.toNat && c.toNat ≤ 57

def isLowerC (c : Char) : Bool := 97 ≤ c.toNat && c.toNat ≤ 122

def isUpperC (c : Char) : Bool := 65 ≤ c.toNat && c.toNat ≤ 90

/-- ASCII lower-casing of one character (JS `toLowerCase` on this corpus). -/
def lowChar (c : Char) : Char := if isUpperC c then Char.ofNat (c.toNat + 32) else c

/-- ASCII upper-casing of one character (JS `toUpperCase` on this corpus). -/
def upChar (c : Char) : Char := if isLowerC c then Char.ofNat (c.toNat - 32) else c

def lowerL (s : L) : L := s.map lowChar

def upperL (s : L) : L := s.map upChar

/-- JS `String.prototype.trim`. -/
def trimL (s : L) : L := ((s.dropWhile isWS).reverse.dropWhile isWS).reverse

/-- Decidable contiguous-substring test (JS `String.prototype.includes`). -/
def isInfixB (p : L) : L → Bool
  | [] => p.isEmpty
  | c :: t => p.isPrefixOf (c :: t) || isInfixB p t

/-- JS `String.prototype.split` with a single-character separator. -/
def splitOnC (sep : Char) : L → List L
  | [] => [[]]
  | c :: r =>
    if c = sep then [] :: splitOnC sep r
    else
      match splitOnC sep r with
      | [] => [[c]]
      | h :: t => (c :: h) :: t

/-- JS global literal replacement `s.replace(/p/g, r)` for a non-empty literal
pattern `p`: scan left to right, non-overlapping.  The `skip` counter encodes
the jump past the matched occurrence (`skip = k` discards the next `k`
characters), keeping the scan structurally recursive. -/
def replaceAllGo (p r : L) : Nat → L → L
  | _, [] => []
  | k+1, _ :: rest => replaceAllGo p r k rest
  | 0, c :: rest =>
    if p ≠ [] ∧ p.isPrefixOf (c :: rest) then
      r ++ replaceAllGo p r (p.length - 1) rest
    else
      c :: replaceAllGo p r 0 rest

def replaceAll (p r s : L) : L := replaceAllGo p r 0 s

/-- JS `s.replace('.', '')`: remove the first period only. -/
def replaceFirstDot : L → L
  | [] => []
  | c :: r => if c = '.' then r else c :: replaceFirstDot r

/-- JS `/\s+/g -> ' '`: collapse every whitespace run to a single space.
The flag records whether the previous character was whitespace (i.e. whether
the scan is inside a run that has already emitted its space). -/
def normWSGo : Bool → L → L
  | _, [] => []
  | prev, c :: r =>
    if isWS c then (if prev then normWSGo true r else ' ' :: normWSGo true r)
    else c :: normWSGo false r

def normWS (s : L) : L := normWSGo false s

/-- cleanText from parse-data.js: CRLF normalisation, whitespace collapsing,
hyphenation-artifact removal, trim (in source order). -/
def cleanText (s : L) : L :=
  trimL (replaceAll ([Char.ofNat 45, ' ']) [] (normWS (replaceAll ([Char.ofNat 13, Char.ofNat 10]) ([Char.ofNat 10]) s)))

/-- fixOcrErrors from parse-data.js: the ten global literal substitutions, in
source order. -/
def fixOcrErrors (s : L) : L :=
  let t1 := replaceAll (("COD").toList) (("GOD").toList) s
  let t2 := replaceAll (("6OD").toList) (("GOD").toList) t1
  let t3 := replaceAll (("600").toList) (("God").toList) t2
  let t4 := replaceAll (("CLORY").toList) (("GLORY").toList) t3
  let t5 := replaceAll (("6LORY").toList) (("GLORY").toList) t4
  let t6 := replaceAll (("cod").toList) (("god").toList) t5
  let t7 := replaceAll (("th e ").toList) (("the ").toList) t6
  let t8 := replaceAll (("he aven").toList) (("heaven").toList) t7
  let t9 := replaceAll ((" jvvhose ").toList) ((" whose ").toList) t8
  replaceAll ((" toglorify ").toList) ((" to glorify ").toList) t9

def isSlugChar (c : Char) : Bool := isLowerC c || isDigitC c

/-- The `[^a-z0-9]+ -> '-'` replacement inside generateId.  The flag records
whether the previous character was a non-slug character (inside a run that
has already emitted its hyphen). -/
def slugRunsGo : Bool → L → L
  | _, [] => []
  | prev, c :: r =>
    if isSlugChar c then c :: slugRunsGo false r
    else if prev then slugRunsGo true r
    else Char.ofNat 45 :: slugRunsGo true r

def slugRuns (s : L) : L := slugRunsGo false s

/-- The `/^-|-$/g -> ''` replacement inside generateId: drop one leading and
one trailing hyphen. -/
def stripEndDash (s : L) : L :=
  let s1 := match s with
    | c :: r => if c = Char.ofNat 45 then r else c :: r
    | [] => []
  match s1.reverse with
  | c :: r => if c = Char.ofNat 45 then r.reverse else s1
  | [] => s1

/-- generateId from parse-data.js. -/
def generateId (title source : L) : L :=
  (source ++ (Char.ofNat 45 :: stripEndDash (slugRuns (lowerL title)))).take 80

/-- One word of the `w.charAt(0) + w.slice(1).toLowerCase()` title-casing. -/
def titleWordKeep : L → L
  | [] => []
  | c :: r => c :: lowerL r

/-- Title-casing that keeps the first character of each word as is. -/
def titleKeep (s : L) : L := List.intercalate ([' ']) ((splitOnC ' ' s).map titleWordKeep)

/-- One word of the `w.charAt(0).toUpperCase() + w.slice(1).toLowerCase()`
title-casing. -/
def titleWordUp : L → L
  | [] => []
  | c :: r => upChar c :: lowerL r

/-- Title-casing that upper-cases the first character of each word. -/
def titleUp (s : L) : L := List.intercalate ([' ']) ((splitOnC ' ' s).map titleWordUp)

def joinSp (xs : List L) : L := List.intercalate ([' ']) xs

/-- THEME_KEYWORDS from parse-data.js, in source (object-key) order. -/
def THEME_KEYWORDS : List (L × List L) := [
  ((("creation").toList), [(("creation").toList), (("created").toList), (("create").toList), (("formed").toList), (("beginning").toList), (("origin").toList), (("genesis").toList), (("first day").toList)]),
  ((("angels").toList), [(("angel").toList), (("seraph").toList), (("cherub").toList), (("ophan").toList), (("metatron").toList), (("sandalphon").toList), (("michael").toList), (("gabriel").toList), (("raphael").toList), (("ministering").toList)]),
  ((("demons").toList), [(("demon").toList), (("satan").toList), (("lilith").toList), (("shedim").toList), (("samael").toList), (("evil spirit").toList), (("azazel").toList), (("prince of darkness").toList)]),
  ((("heaven").toList), [(("heaven").toList), (("paradise").toList), (("throne").toList), (("celestial").toList), (("firmament").toList), (("divine chariot").toList), (("merkavah").toList), (("heavenly").toList)]),
  ((("hell").toList), [(("hell").toList), (("gehenna").toList), (("gehinom").toList), (("underworld").toList), (("punishment").toList), (("sheol").toList)]),
  ((("messiah").toList), [(("messiah").toList), (("redemption").toList), (("end of days").toList), (("olam haba").toList), (("world to come").toList), (("messianic").toList)]),
  ((("torah").toList), [(("torah").toList), (("scripture").toList), (("law").toList), (("commandment").toList), (("covenant").toList), (("revelation").toList), (("sinai").toList), (("tablets").toList)]),
  ((("patriarchs").toList), [(("abraham").toList), (("isaac").toList), (("jacob").toList), (("sarah").toList), (("rebecca").toList), (("rachel").toList), (("leah").toList), (("patriarch").toList)]),
  ((("moses").toList), [(("moses").toList), (("pharaoh").toList), (("egypt").toList), (("plagues").toList), (("red sea").toList), (("burning bush").toList), (("sinai").toList)]),
  ((("adam-eve").toList), [(("adam").toList), (("eve").toList), (("garden of eden").toList), (("eden").toList), (("forbidden fruit").toList), (("tree of knowledge").toList), (("first man").toList), (("first woman").toList)]),
  ((("noah").toList), [(("noah").toList), (("flood").toList), (("ark").toList), (("deluge").toList), (("rainbow").toList)]),
  ((("mysticism").toList), [(("kabbalah").toList), (("sefirot").toList), (("zohar").toList), (("mystical").toList), (("meditation").toList), (("divine name").toList), (("secret").toList), (("hidden").toList)]),
  ((("creatures").toList), [(("leviathan").toList), (("behemoth").toList), (("ziz").toList), (("phoenix").toList), (("golem").toList), (("dragon").toList), ((("re").toList) ++ (Char.ofNat 39 :: (("em").toList))), (("monster").toList), (("beast").toList)]),
  ((("soul").toList), [(("soul").toList), (("neshama").toList), (("ruach").toList), (("nefesh").toList), (("spirit").toList), (("afterlife").toList), (("reincarnation").toList), (("treasury of souls").toList)]),
  ((("prophecy").toList), [(("prophet").toList), (("prophecy").toList), (("vision").toList), (("dream").toList), (("revelation").toList), (("seer").toList)]),
  ((("temple").toList), [(("temple").toList), (("tabernacle").toList), (("mishkan").toList), (("sanctuary").toList), (("holy of holies").toList), (("ark of the covenant").toList)]),
  ((("exile").toList), [(("exile").toList), (("diaspora").toList), (("wandering").toList), (("scattered").toList), (("captivity").toList), (("babylon").toList)]),
  ((("holy-land").toList), [(("jerusalem").toList), (("zion").toList), (("israel").toList), (("canaan").toList), (("promised land").toList), (("holy land").toList)])]

/-- extractThemes from parse-data.js: a theme is tagged as soon as one of its
keywords occurs in the lower-cased text; result in taxonomy order. -/
def extractThemes (text : L) : List L :=
  let lt := lowerL text
  (THEME_KEYWORDS.filter (fun p => p.2.any (fun k => isInfixB k lt))).map (fun p => p.1)

/-- BIBLICAL_BOOKS from parse-data.js, in source order; each entry is the
literal text the corresponding regex alternative matches. -/
def BIBLICAL_BOOKS : List L := [
  (("Genesis").toList), (("Exodus").toList), (("Leviticus").toList), (("Numbers").toList), (("Deuteronomy").toList),
  (("Joshua").toList), (("Judges").toList), (("Ruth").toList), (("1 Samuel").toList), (("2 Samuel").toList), (("1 Kings").toList), (("2 Kings").toList),
  (("1 Chronicles").toList), (("2 Chronicles").toList), (("Ezra").toList), (("Nehemiah").toList), (("Esther").toList),
  (("Job").toList), (("Psalms").toList), (("Proverbs").toList), (("Ecclesiastes").toList), (("Song of Songs").toList), (("Song of Solomon").toList),
  (("Isaiah").toList), (("Jeremiah").toList), (("Lamentations").toList), (("Ezekiel").toList), (("Daniel").toList),
  (("Hosea").toList), (("Joel").toList), (("Amos").toList), (("Obadiah").toList), (("Jonah").toList), (("Micah").toList), (("Nahum").toList),
  (("Habakkuk").toList), (("Zephaniah").toList), (("Haggai").toList), (("Zechariah").toList), (("Malachi").toList),
  (("Bereishit").toList), (("Shemot").toList), (("Vayikra").toList), (("Bamidbar").toList), (("Devarim").toList),
  (("Tehillim").toList), (("Mishlei").toList), (("Kohelet").toList), (("Shir HaShirim").toList), (("Iyov").toList),
  (("Yeshayahu").toList), (("Yirmiyahu").toList), (("Yechezkel").toList), (("Daniyel").toList),
  (("Isa.").toList), (("Gen.").toList), (("Exod.").toList), (("Lev.").toList), (("Num.").toList), (("Deut.").toList),
  (("Ezek.").toList), (("Dan.").toList), (("Ps.").toList), (("Prov.").toList),
  (("B.").toList), (("Y.").toList), (("Midrash").toList), (("Pirkei").toList), (("Zohar").toList)]

/-- First alternative of the book alternation that matches (case-insensitively)
at the head of `s`; returns the matched slice of the input. -/
def matchBookAux (s : L) : List L → Option L
  | [] => none
  | b :: bs =>
    if (lowerL b).isPrefixOf (lowerL s) then some (s.take b.length)
    else matchBookAux s bs

def matchBook (s : L) : Option L := matchBookAux s BIBLICAL_BOOKS

/-- One attempted match of BIBLICAL_PATTERN at the head of `s`: returns the
total matched length and the canonical citation built by the source
(`match[1].replace(/\\./g,'')` never fires, since the matched text contains no
backslash, so the book text is kept verbatim). -/
def citeAt (s : L) : Option (Nat × L) :=
  match matchBook s with
  | none => none
  | some b =>
    let r1 := s.drop b.length
    let w := r1.takeWhile isWS
    let r2 := r1.drop w.length
    let d1 := r2.takeWhile isDigitC
    let r3 := r2.drop d1.length
    let sep : Nat := if r3.head? = some ':' ∨ r3.head? = some '.' then 1 else 0
    let r4 := r3.drop sep
    let d2 := r4.takeWhile isDigitC
    let r5 := r4.drop d2.length
    let g4 : Option L :=
      match r5 with
      | c :: r6 =>
        if c = Char.ofNat 45 ∨ c = Char.ofNat 8211 then
          (let d3 := r6.takeWhile isDigitC
           if d3 = [] then none else some d3)
        else none
      | [] => none
    let len := b.length + w.length + d1.length + sep + d2.length +
      (match g4 with | some d3 => 1 + d3.length | none => 0)
    let ref :=
      if d1 = [] then b
      else b ++ (' ' :: d1) ++
        (if d2 = [] then []
         else (':' :: d2) ++ (match g4 with | some d3 => Char.ofNat 45 :: d3 | none => []))
    some (len, trimL ref)

/-- Insertion-ordered deduplicating append (the JS `Set` plus `Array.from`). -/
def pushUnique (acc : List L) (x : L) : List L := if x ∈ acc then acc else acc ++ [x]

/-- The global `exec` scan of BIBLICAL_PATTERN: try a match at each position,
jump past a match when one is found (the matched length is always ≥ 1 because
every book alternative is non-empty; the `skip` counter encodes the jump). -/
def extractBibGo : Nat → L → List L → List L
  | _, [], acc => acc
  | k+1, _ :: rest, acc => extractBibGo k rest acc
  | 0, c :: rest, acc =>
    match citeAt (c :: rest) with
    | some (len, ref) => extractBibGo (len - 1) rest (pushUnique acc ref)
    | none => extractBibGo 0 rest acc

/-- extractBiblicalReferences from parse-data.js. -/
def extractBiblicalReferences (text : L) : List L := extractBibGo 0 text []

/-- A finalized myth record (`number` is only set by the Schwartz parser; the
Ginzberg parser's records carry no number). -/
structure Myth where
  id : L
  number : Option Nat
  title : L
  content : L
  commentary : L
  sources : List L
  book : L
  sectionLabel : L
  sourceWork : L
  biblicalReferences : List L
  themes : List L
deriving Repr, DecidableEq

/-- The `mode` variable of parseSchwartzFile. -/
inductive AMode
  | seeking
  | contentM
  | commentaryM
  | sourcesM
  | skipM
deriving Repr, DecidableEq

/-- The draft record object created when a numbered myth title is seen
(content and commentary are filled in at flush time). -/
structure ADraft where
  idA : L
  number : Nat
  title : L
  book : L
  sectionLabel : L
  sources : List L
deriving Repr, DecidableEq

/-- The mutable state of parseSchwartzFile's scanning loop. -/
structure StA where
  book : L
  sectionLabel : L
  myth : Option ADraft
  buffer : List (AMode × L)
  mode : AMode
  myths : List Myth
deriving Repr, DecidableEq

def digitsToNat (ds : L) : Nat := ds.foldl (fun n c => n * 10 + (c.toNat - 48)) 0

/-- Flushing the in-progress record: join buffered content/commentary lines
and keep the record only if the (draft) content length exceeds 50. -/
def flushA (st : StA) : List Myth :=
  match st.myth with
  | none => st.myths
  | some d =>
    let c := joinSp ((st.buffer.filter (fun e => e.1 = AMode.contentM)).map (fun e => e.2))
    let cm := joinSp ((st.buffer.filter (fun e => e.1 = AMode.commentaryM)).map (fun e => e.2))
    if 50 < c.length then
      st.myths ++ [{
        id := d.idA, number := some d.number, title := d.title, content := c,
        commentary := cm, sources := d.sources, book := d.book, sectionLabel := d.sectionLabel,
        sourceWork := (("schwartz").toList), biblicalReferences := [], themes := [] }]
    else st.myths

/-- Test for `/^\d+$/`. -/
def isDigitsOnly (l : L) : Bool := !l.isEmpty && l.all isDigitC

/-- Test for `/^[ivxlc]+$/i` (the page-number Roman filter of Source-A). -/
def isRomanA (l : L) : Bool :=
  !l.isEmpty && l.all (fun c =>
    let d := lowChar c
    d = 'i' || d = 'v' || d = 'x' || d = 'l' || d = 'c')

/-- Test for `/^\d+\s+MYTHS OF/` (a running page header). -/
def isRunningHeader (l : L) : Bool :=
  let ds := l.takeWhile isDigitC
  !ds.isEmpty &&
    (let r := l.drop ds.length
     let w := r.takeWhile isWS
     !w.isEmpty && (("MYTHS OF").toList).isPrefixOf (r.drop w.length))

def ORDINAL_WORDS : List L :=
  [(("ONE").toList), (("TWO").toList), (("THREE").toList), (("FOUR").toList), (("FIVE").toList),
   (("SIX").toList), (("SEVEN").toList), (("EIGHT").toList), (("NINE").toList), (("TEN").toList)]

/-- Test for `/^BOOK\s+(ONE|TWO|...|TEN)$/i`. -/
def isBookHeader (l : L) : Bool :=
  let u := upperL l
  (("BOOK").toList).isPrefixOf u &&
    (let r := u.drop 4
     let w := r.takeWhile isWS
     !w.isEmpty && ORDINAL_WORDS.any (fun o => r.drop w.length = o))

/-- Test for `/^\d+\./`. -/
def startsDigitsDot (l : L) : Bool :=
  let ds := l.takeWhile isDigitC
  !ds.isEmpty && (l.drop ds.length).head? = some '.'

/-- Test for `/^BOOK\s+/` (case-sensitive). -/
def startsBookWS (l : L) : Bool :=
  (("BOOK").toList).isPrefixOf l &&
    (match (l.drop 4).head? with
     | some c => isWS c
     | none => false)

/-- Test for `/^Sources/i`. -/
def startsSourcesCI (l : L) : Bool := (("sources").toList).isPrefixOf (lowerL l)

/-- Test for `/^Studies/i`. -/
def startsStudiesCI (l : L) : Bool := (("studies").toList).isPrefixOf (lowerL l)

/-- The Source-A section-header conditions of line 192 (the `currentBook`
condition is checked at the call site). -/
def isSectionHeaderA (l : L) : Bool :=
  l = upperL l && decide (5 < l.length) && decide (l.length < 60) &&
  !startsDigitsDot l && !startsBookWS l && !startsSourcesCI l && !startsStudiesCI l

/-- The character class `[A-Z\s'',\-&?]` of the myth-title pattern. -/
def mythTitleChar (c : Char) : Bool :=
  isUpperC c || isWS c || c = Char.ofNat 39 || c = ',' || c = Char.ofNat 45 || c = '&' || c = '?'

/-- Match of `/^(\d+)\.\s+([A-Z][A-Z\s'',\-&?]+)$/`: returns the parsed number
and the raw captured title. -/
def mythTitle (l : L) : Option (Nat × L) :=
  let ds := l.takeWhile isDigitC
  if ds.isEmpty then none
  else
    match l.drop ds.length with
    | '.' :: r1 =>
      let w := r1.takeWhile isWS
      if w.isEmpty then none
      else
        (match r1.drop w.length with
         | c :: rest =>
           if isUpperC c && !rest.isEmpty && rest.all mythTitleChar then
             some (digitsToNat ds, c :: rest)
           else none
         | [] => none)
    | _ => none

/-- Test for `/^Sources\s*:?\s*$/i`. -/
def isSourcesHdr (l : L) : Bool :=
  let lo := lowerL l
  (("sources").toList).isPrefixOf lo &&
    (let r := (lo.drop 7).dropWhile isWS
     let r2 := if r.head? = some ':' then r.drop 1 else r
     r2.all isWS)

/-- Test for `/^Studies\s*:?\s*$/i`. -/
def isStudiesHdr (l : L) : Bool :=
  let lo := lowerL l
  (("studies").toList).isPrefixOf lo &&
    (let r := (lo.drop 7).dropWhile isWS
     let r2 := if r.head? = some ':' then r.drop 1 else r
     r2.all isWS)

/-- The fixed analytical lead-in phrases of the commentary-transition regex
(all alternation branches expanded; the test is an anchored case-insensitive
prefix match). -/
def LEAD_INS : List L := [
  (("This biblical").toList), (("This myth").toList), (("This passage").toList), (("This story").toList),
  (("This legend").toList), (("This vision").toList), (("This account").toList), (("This text").toList),
  (("This is").toList), (("Here the").toList), (("Here God").toList), (("Here we").toList),
  (("In this myth").toList), (("In this passage").toList), (("In this interpretation").toList),
  (("According to").toList), (("One way of reading").toList), (("A close variant").toList),
  (("The idea").toList), (("While").toList), (("So too").toList), (("Some say").toList),
  (("There are many").toList)]

def isLead (l : L) : Bool := LEAD_INS.any (fun p => (lowerL p).isPrefixOf (lowerL l))

/-- The summed character length of the buffered lines. -/
def sumLen (buf : List (AMode × L)) : Nat := buf.foldl (fun n e => n + e.2.length) 0

/-- The commentary-transition test of lines 278-283 (the source checks the
ASCII double-quote character twice; both checks are the same character). -/
def commentarySwitch (buf : List (AMode × L)) (l : L) : Bool :=
  decide (300 < sumLen buf) && isLead l && !(l.contains '"') &&
  !(isInfixB (("said").toList) l) && !(isInfixB (("spoke").toList) l)

/-- The fall-through content/commentary/sources accumulation of lines 267-290
(everything below the header branches). -/
def contentStep (st : StA) (line : L) : StA :=
  match st.myth with
  | none => st
  | some d =>
    if st.mode = AMode.skipM ∨ st.mode = AMode.seeking then st
    else if st.mode = AMode.sourcesM then
      let parts := ((splitOnC ',' (line.map (fun c => if c = ';' then ',' else c))).map trimL).filter
        (fun s => 2 < s.length)
      { st with myth := some { d with sources := d.sources ++ parts } }
    else
      let newMode :=
        if st.mode = AMode.contentM ∧ st.buffer ≠ [] ∧ commentarySwitch st.buffer line then
          AMode.commentaryM
        else st.mode
      { st with mode := newMode, buffer := st.buffer ++ [(newMode, line)] }

/-- The book-header branch of lines 165-189: flush, set the book label
(absorbing an optional "MYTHS OF/ABOUT" subtitle), clear the record, enter
`seeking`.  The source never resets `currentSection` here. -/
def bookApply (st : StA) (line : L) (sub : Option L) : StA :=
  { book := match sub with
      | some s => line ++ (':' :: ' ' :: titleKeep (fixOcrErrors s))
      | none => line,
    sectionLabel := st.sectionLabel, myth := none, buffer := [], mode := AMode.seeking,
    myths := flushA st }

/-- Test for `/^MYTHS\s+(OF|ABOUT)/i` applied to `fixOcrErrors nextLine`. -/
def isSubtitleLine (l : L) : Bool :=
  let u := upperL (fixOcrErrors l)
  (("MYTHS").toList).isPrefixOf u &&
    (let r := u.drop 5
     let w := r.takeWhile isWS
     !w.isEmpty &&
       ((("OF").toList).isPrefixOf (r.drop w.length) || (("ABOUT").toList).isPrefixOf (r.drop w.length)))

def subtitleAt (tail : List L) (j : Nat) : Option L :=
  match tail.get? (j - 1) with
  | some nl =>
    let t := trimL nl
    if t ≠ [] ∧ isSubtitleLine t then some t else none
  | none => none

/-- The `j = 1..3` subtitle lookahead of lines 177-184: first hit wins and the
loop index jumps past it. -/
def findSubtitle (tail : List L) : Option (Nat × L) :=
  match subtitleAt tail 1 with
  | some t => some (1, t)
  | none =>
    match subtitleAt tail 2 with
    | some t => some (2, t)
    | none =>
      match subtitleAt tail 3 with
      | some t => some (3, t)
      | none => none

/-- The scanning loop of parseSchwartzFile from the content start to the end
of input, on the remaining (already trimmed and re-trimmed) lines.  The
`skip` counter encodes the `i += j` jump past an absorbed subtitle line
(`skip = k` discards the next `k` lines), keeping the scan structurally
recursive. -/
def loopA : List L → StA → Nat → List Myth
  | [], st, _ => flushA st
  | _ :: tail, st, k+1 => loopA tail st k
  | cur :: tail, st, 0 =>
    let line := trimL cur
    if line.isEmpty then loopA tail st 0
    else if isDigitsOnly line then loopA tail st 0
    else if isRomanA line then loopA tail st 0
    else if (("CONTENTS").toList).isPrefixOf line then loopA tail st 0
    else if isRunningHeader line then loopA tail st 0
    else
      let fl := fixOcrErrors line
      if isBookHeader fl then
        match findSubtitle tail with
        | some (j, t) => loopA tail (bookApply st fl (some t)) j
        | none => loopA tail (bookApply st fl none) 0
      else if isSectionHeaderA fl ∧ st.book ≠ [] then
        loopA tail {
          book := st.book, sectionLabel := titleUp fl, myth := none, buffer := [],
          mode := AMode.seeking, myths := flushA st } 0
      else
        match mythTitle fl with
        | some (n, t) =>
          let ttl := titleKeep (trimL t)
          loopA tail {
            book := st.book, sectionLabel := st.sectionLabel,
            myth := some {
              idA := generateId ttl (("schwartz").toList), number := n, title := ttl,
              book := st.book, sectionLabel := st.sectionLabel, sources := [] },
            buffer := [], mode := AMode.contentM, myths := flushA st } 0
        | none =>
          if isSourcesHdr fl then loopA tail { st with mode := AMode.sourcesM } 0
          else if isStudiesHdr fl then loopA tail { st with mode := AMode.skipM } 0
          else loopA tail (contentStep st fl) 0

def initA : StA :=
  { book := [], sectionLabel := [], myth := none, buffer := [], mode := AMode.seeking, myths := [] }

/-- The content-start search of lines 134-141: the first line with trimmed
text `BOOK ONE` at index ≥ 6000; returns the suffix of the line list starting
there (the loop then runs from that index), or `none` when the marker is
missing (index 0 is unreachable from the search, so `contentStart === 0`
exactly means "not found"). -/
def dropToBookOne : List L → Option (List L)
  | [] => none
  | l :: r => if trimL l = (("BOOK ONE").toList) then some (l :: r) else dropToBookOne r

/-- The draft records produced by parseSchwartzFile before per-record
post-processing. -/
def schwartzDrafts (content : L) : List Myth :=
  let lines := (splitOnC nlC content).map trimL
  match dropToBookOne (lines.drop 6000) with
  | none => []
  | some suffix => loopA suffix initA 0

/-- The per-record post-processing of lines 303-313. -/
def finalizeA (m : Myth) : Myth :=
  let fullText := m.title ++ (' ' :: m.content) ++ (' ' :: m.commentary)
  { m with
    content := cleanText m.content, commentary := cleanText m.commentary,
    biblicalReferences := extractBiblicalReferences fullText,
    themes := extractThemes fullText,
    sources := m.sources.filter (fun s => 2 < s.length) }

/-- parseSchwartzFile from parse-data.js, on the raw file text. -/
def parseSchwartzFile (content : L) : List Myth := (schwartzDrafts content).map finalizeA

/-- Tail of the Ginzberg Roman-numeral pattern: `\.?\s*$`. -/
def romTail (s : L) : Bool :=
  if s.head? = some '.' then (s.drop 1).all isWS else s.all isWS

/-- Test for `/^(I{1,3}V?|VI{0,3})\.?\s*$/` (case-sensitive).  The first
alternative succeeds exactly when the leading run of `I` has length 1..3
(a longer run can never recover by backtracking, since nothing later in the
pattern matches `I`). -/
def isRomanG (l : L) : Bool :=
  let n := (l.takeWhile (fun c => c = 'I')).length
  let alt1 := decide (1 ≤ n) && decide (n ≤ 3) &&
    (match l.drop n with
     | 'V' :: r2 => romTail r2
     | r => romTail r)
  let alt2 :=
    match l with
    | 'V' :: r =>
      let m := (r.takeWhile (fun c => c = 'I')).length
      decide (m ≤ 3) && romTail (r.drop m)
    | _ => false
  alt1 || alt2

/-- The `/\[\d+\]/g -> ''` footnote-marker removal (`skip` encodes the jump
past a matched `[digits]` marker). -/
def stripFootGo : Nat → L → L
  | _, [] => []
  | k+1, _ :: r => stripFootGo k r
  | 0, c :: r =>
    if c = '[' then
      (let ds := r.takeWhile isDigitC
       if !ds.isEmpty && (r.drop ds.length).head? = some ']' then
         stripFootGo (ds.length + 1) r
       else c :: stripFootGo 0 r)
    else c :: stripFootGo 0 r

def stripFoot (s : L) : L := stripFootGo 0 s

/-- The draft record object of the Ginzberg parser (content filled at flush). -/
structure GDraft where
  idG : L
  title : L
  book : L
  sourceWork : L
deriving Repr, DecidableEq

/-- The mutable state of parseGinzbergFile's scanning loop. -/
structure StB where
  chapter : L
  myth : Option GDraft
  buffer : List L
  myths : List Myth
deriving Repr, DecidableEq

/-- Ginzberg flush: requires a non-empty buffer and joined content length
over 100. -/
def flushB (st : StB) : List Myth :=
  match st.myth with
  | none => st.myths
  | some d =>
    if st.buffer.isEmpty then st.myths
    else
      let c := joinSp st.buffer
      if 100 < c.length then
        st.myths ++ [{
          id := d.idG, number := none, title := d.title, content := c, commentary := [],
          sources := [], book := d.book, sectionLabel := [], sourceWork := d.sourceWork,
          biblicalReferences := [], themes := [] }]
      else st.myths

/-- The Ginzberg section-header conditions of line 382 (the `currentChapter`
condition is checked at the call site). -/
def isSectionG (l : L) : Bool :=
  l = upperL l && decide (5 < l.length) && decide (l.length < 80) &&
  !isRomanG l && !(isInfixB (("***").toList) l)

def chapTitleAt (tail : List L) (k : Nat) : Option L :=
  match tail.get? k with
  | some nl =>
    let t := trimL nl
    if t ≠ [] ∧ t = upperL t ∧ 3 < t.length ∧ !(isRomanG t) then some t else none
  | none => none

/-- The chapter-title lookahead of lines 368-375 (up to four lines ahead;
first hit wins and the loop index jumps past it). -/
def findChapTitle (tail : List L) : Option (Nat × L) :=
  match chapTitleAt tail 0 with
  | some t => some (0, t)
  | none =>
    match chapTitleAt tail 1 with
    | some t => some (1, t)
    | none =>
      match chapTitleAt tail 2 with
      | some t => some (2, t)
      | none =>
        match chapTitleAt tail 3 with
        | some t => some (3, t)
        | none => none

/-- The scanning loop of parseGinzbergFile from the content start to the end
of input.  `vol` is the decimal rendering of the volume number. -/
def loopG (vol : L) : List L → StB → Nat → List Myth
  | [], st, _ => flushB st
  | _ :: tail, st, k+1 => loopG vol tail st k
  | cur :: tail, st, 0 =>
    let line := trimL cur
    if line.isEmpty then loopG vol tail st 0
    else if isDigitsOnly line then loopG vol tail st 0
    else if isRomanG line then
      (let st1 : StB := { chapter := st.chapter, myth := none, buffer := [], myths := flushB st }
       let roman := trimL (replaceFirstDot line)
       match findChapTitle tail with
       | some (k, t) =>
         loopG vol tail { st1 with chapter := roman ++ ('.' :: ' ' :: titleKeep t) } (k + 1)
       | none => loopG vol tail st1 0)
    else if isSectionG line ∧ st.chapter ≠ [] then
      (let ttl := titleKeep line
       loopG vol tail {
         chapter := st.chapter,
         myth := some {
           idG := generateId (('v' :: vol) ++ (Char.ofNat 45 :: ttl)) (("ginzberg").toList),
           title := ttl, book := st.chapter, sourceWork := (("ginzberg-v").toList) ++ vol },
         buffer := [], myths := flushB st } 0)
    else
      match st.myth with
      | some _ =>
        (let l2 := stripFoot line
         if l2.isEmpty then loopG vol tail st 0
         else loopG vol tail { st with buffer := st.buffer ++ [l2] } 0)
      | none => loopG vol tail st 0

def initB : StB := { chapter := [], myth := none, buffer := [], myths := [] }

/-- The truthy upper-cased lookahead of line 333-334. -/
def gMarkerNext (rest : List L) : Bool :=
  match rest.head? with
  | some nl =>
    let u := upperL (trimL nl)
    !u.isEmpty && (isInfixB (("CREATION").toList) u || isInfixB (("JOSEPH").toList) u)
  | none => false

/-- The content-start search of lines 328-343 over the lines from index 400,
with `prev` the line just before the current one (needed because the second
marker sets `contentStart = i - 1`).  Returns the suffix of the line list from
`contentStart`, or `none` when no marker is found (in which case the source
leaves `contentStart = 0` and scans the whole file). -/
def findGStartAux (prev : L) : List L → Option (List L)
  | [] => none
  | l :: rest =>
    if (l = (("I").toList) ∨ l = (("I.").toList)) ∧ gMarkerNext rest then some (l :: rest)
    else if l = (("THE CREATION OF THE WORLD").toList) ∨ l = (("JOSEPH").toList) then
      some (prev :: l :: rest)
    else findGStartAux l rest

/-- The draft records produced by parseGinzbergFile before per-record
post-processing. -/
def ginzbergDrafts (content : L) (vol : Nat) : List Myth :=
  let lines := (splitOnC nlC content).map trimL
  let volL : L := Nat.toDigits 10 vol
  match findGStartAux (lines.getD 399 []) (lines.drop 400) with
  | some suffix => loopG volL suffix initB 0
  | none => loopG volL lines initB 0

/-- The per-record post-processing of lines 436-441 (reference extraction and
theme tagging run over the pre-clean draft content). -/
def finalizeG (m : Myth) : Myth :=
  { m with
    content := cleanText m.content,
    biblicalReferences := extractBiblicalReferences m.content,
    themes := extractThemes m.content }

/-- parseGinzbergFile from parse-data.js, on the raw file text and volume
number. -/
def parseGinzbergFile (content : L) (vol : Nat) : List Myth :=
  (ginzbergDrafts content vol).map finalizeG

/-- One `stats.themes[theme] = (stats.themes[theme] || 0) + 1` update on an
insertion-ordered association list (the JS object with string keys). -/
def bump (m : List (L × Nat)) (k : L) : List (L × Nat) :=
  if m.any (fun p => p.1 = k) then m.map (fun p => if p.1 = k then (p.1, p.2 + 1) else p)
  else m ++ [(k, 1)]

/-- The theme histogram of main's stats object. -/
def statsThemes (ms : List Myth) : List (L × Nat) :=
  ms.foldl (fun acc m => m.themes.foldl bump acc) []

/-- The book histogram of main's stats object (only truthy book labels are
counted). -/
def statsBooks (ms : List Myth) : List (L × Nat) :=
  ms.foldl (fun acc m => if m.book ≠ [] then bump acc m.book else acc) []

def themeCount (ms : List Myth) (t : L) : Nat :=
  match (statsThemes ms).find? (fun p => p.1 = t) with
  | some p => p.2
  | none => 0

/-- JS default string comparison (code-unit lexicographic order). -/
def lexLe : L → L → Bool
  | [], _ => true
  | _ :: _, [] => false
  | a :: xs, b :: ys =>
    if a.toNat < b.toNat then true
    else if b.toNat < a.toNat then false
    else lexLe xs ys

/-- filterOptions.themes: the histogram keys sorted by descending count
(JS `sort` modelled by a stable sort; the claims only use sortedness and
permutation, which any comparator-respecting sort satisfies). -/
def filterThemes (ms : List Myth) : List L :=
  (List.insertionSort (fun p q : L × Nat => q.2 ≤ p.2) (statsThemes ms)).map (fun p => p.1)

/-- filterOptions.books: the book histogram keys sorted lexicographically. -/
def filterBooks (ms : List Myth) : List L :=
  List.insertionSort (fun a b : L => lexLe a b) ((statsBooks ms).map (fun p => p.1))

/-- The combined corpus of main: all three parses in fixed source order. -/
def allMyths (sa g1 g2 : L) : List Myth :=
  parseSchwartzFile sa ++ parseGinzbergFile g1 1 ++ parseGinzbergFile g2 2

/-- Whether the Schwartz content-start search (line `BOOK ONE` at index
≥ 6000) succeeds on a raw file text. -/
def schwartzMarkerFound (content : L) : Bool :=
  (dropToBookOne (((splitOnC nlC content).map trimL).drop 6000)).isSome

/-- Whether the Ginzberg content-start search (lines 328-343) succeeds on a
raw file text. -/
def ginzbergMarkerFound (content : L) : Bool :=
  (findGStartAux (((splitOnC nlC content).map trimL).getD 399 [])
    (((splitOnC nlC content).map trimL).drop 400)).isSome

/-- A line consisting solely of lower-case Roman-numeral letters. -/
def lowerRomanOnly (l : L) : Bool :=
  !l.isEmpty && l.all (fun c =>
    c = 'i' || c = 'v' || c = 'x' || c = 'l' || c = 'c' || c = 'd' || c = 'm')

/-- Concrete Schwartz input for the length-threshold analysis: the draft
content line has 61 characters but 40 of them form `- ` hyphenation pairs
that cleanText removes. -/
def exC1 : L :=
  List.replicate 6000 nlC ++
    (("BOOK ONE\n1. AAA\nx- x- x- x- x- x- x- x- x- x- x- x- x- x- x- x- x- x- x- x- y").toList)

/-- Concrete Schwartz input whose one record has a clean 54-character content
line. -/
def exC1w : L :=
  List.replicate 6000 nlC ++
    (("BOOK ONE\n1. AAA\naaaa bbbb cccc dddd eeee ffff gggg hhhh iiii jjjj kkkk").toList)

/-- Concrete Schwartz input: a section header inside BOOK ONE followed by a
BOOK TWO header and a myth. -/
def exC2 : L :=
  List.replicate 6000 nlC ++
    (("BOOK ONE\nTHE HEAVENLY COURT\nBOOK TWO\n1. AAA\naaaa bbbb cccc dddd eeee ffff gggg hhhh iiii jjjj kkkk").toList)

/-- Concrete Ginzberg input (under 401 lines, so the content-start search
never fires) with a lower-case Roman-numeral line amid the content. -/
def exC4 : L :=
  ("II\nTHE CHAPTER OF STRANGE THINGS\nTHE FIRST SECTION HEAD\nAt that time the great sea was stirred and all the creatures of the deep were gathered to behold the wonder that had come to pass.\niv").toList

/-- Concrete Ginzberg input with 410 empty lines before the text, so the
content-start search runs over lines 400.. and finds no marker. -/
def exC5 : L :=
  List.replicate 410 nlC ++
    (("II\nTHE CHAPTER OF STRANGE THINGS\nTHE FIRST SECTION HEAD\nAt that time the great sea was stirred and all the creatures of the deep were gathered to behold the wonder that had come to pass in the world.").toList)

/-- Concrete Ginzberg input whose content contains the OCR misread `COD`. -/
def exC8 : L :=
  ("II\nTHE CHAPTER OF STRANGE THINGS\nTHE FIRST SECTION HEAD\nAnd COD spake to the fishes of the sea, and they hearkened to the voice of COD and were silent before the storm.").toList

/-- Concrete Schwartz input containing the OCR misread `COD` in a content
line. -/
def exC8s : L :=
  List.replicate 6000 nlC ++
    (("BOOK ONE\n1. AAA\nAnd COD made the firmament and set the stars therein, and COD saw that it was very good in those days.").toList)

/-- No two adjacent whitespace characters (analysis predicate for cleanText). -/
def noWW (a b : Char) : Prop := ¬ (isWS a = true ∧ isWS b = true)

/-- No hyphen-space pair (analysis predicate for cleanText). -/
def noDS (a b : Char) : Prop := ¬ (a = Char.ofNat 45 ∧ b = ' ')

/-! Helper lemmas: stripping the 6000-line preamble that the Schwartz
content-start search skips over, and basic facts about the extractors. -/

theorem trimL_nil : trimL [] = [] := rfl

theorem splitOnC_nl_replicate (n : Nat) (r : L) :
    splitOnC nlC (List.replicate n nlC ++ r) = List.replicate n [] ++ splitOnC nlC r := by
  induction n with
  | zero => simp
  | succ k ih => simp [List.replicate_succ, splitOnC, ih]

theorem drop_replicate_append {α : Type} (n : Nat) (x : α) (r : List α) :
    (List.replicate n x ++ r).drop n = r := by
  induction n with
  | zero => simp
  | succ k ih => simp [List.replicate_succ, ih]

theorem schwartzDrafts_skipPre (rest : L) :
    schwartzDrafts (List.replicate 6000 nlC ++ rest) =
      match dropToBookOne ((splitOnC nlC rest).map trimL) with
      | none => []
      | some suffix => loopA suffix initA 0 := by
  unfold schwartzDrafts
  rw [splitOnC_nl_replicate, List.map_append, List.map_replicate, trimL_nil]
  simp only [drop_replicate_append]

theorem parseSchwartz_skipPre (rest : L) :
    parseSchwartzFile (List.replicate 6000 nlC ++ rest) =
      (match dropToBookOne ((splitOnC nlC rest).map trimL) with
       | none => []
       | some suffix => loopA suffix initA 0).map finalizeA := by
  unfold parseSchwartzFile
  rw [schwartzDrafts_skipPre]

theorem pushUnique_nodup (acc : List L) (x : L) (h : acc.Nodup) : (pushUnique acc x).Nodup := by
  unfold pushUnique
  split
  · exact h
  · simp_all [List.nodup_append]

theorem extractBibGo_nodup (s : L) : ∀ (skip : Nat) (acc : List L), acc.Nodup →
    (extractBibGo skip s acc).Nodup := by
  induction s with
  | nil => intro skip acc h; cases skip <;> simpa [extractBibGo] using h
  | cons c rest ih =>
    intro skip acc h
    cases skip with
    | succ k => simpa only [extractBibGo] using ih k acc h
    | zero =>
      simp only [extractBibGo]
      split
      · exact ih _ _ (pushUnique_nodup _ _ h)
      · exact ih 0 acc h

/-- C3: the canonical citation emitted by extractBiblicalReferences keeps the
trailing abbreviation period: on a text containing `Gen. 3:14-15` the result
is `Gen. 3:14-15`, not the `Gen 3:14-15` the specification describes.  The
`replace(/\\./g,'')` call in the source strips backslash-plus-character
pairs, which can never occur in matched input text, so it is a no-op. -/
theorem claim3_period_not_stripped :
    extractBiblicalReferences (("See Gen. 3:14-15 in the text").toList) =
      [("Gen. 3:14-15").toList] ∧
    ("Gen 3:14-15").toList ∉ extractBiblicalReferences (("See Gen. 3:14-15 in the text").toList) := by
  constructor
  · decide
  · decide

/-- C9: for every input text, extractThemes returns a duplicate-free list
drawn from the fixed 18-identifier taxonomy, and extractBiblicalReferences
returns a duplicate-free list. -/
theorem claim9_dedup_and_taxonomy (t : L) :
    (extractThemes t).Nodup ∧
    extractThemes t ⊆ THEME_KEYWORDS.map (fun p => p.1) ∧
    (extractBiblicalReferences t).Nodup := by
  refine ⟨?_, ?_, extractBibGo_nodup t 0 [] List.nodup_nil⟩
  · unfold extractThemes
    exact List.Nodup.sublist ((List.filter_sublist _).map _) (by decide)
  · unfold extractThemes
    exact ((List.filter_sublist _).map _).subset

/-- C9 witness: the theorem applied at a concrete text. -/
theorem claim9_witness :
    (extractThemes (("the ark of heaven").toList)).Nodup ∧
    extractThemes (("the ark of heaven").toList) ⊆ THEME_KEYWORDS.map (fun p => p.1) ∧
    (extractBiblicalReferences (("the ark of heaven").toList)).Nodup :=
  claim9_dedup_and_taxonomy (("the ark of heaven").toList)

/-- C1 counterexample: a Schwartz record whose draft content has 61 characters
(passing the `> 50` filter) but whose finalized content, after cleanText
removes twenty `- ` hyphenation pairs, has only 21 characters -- so the
output does contain a schwartz record with cleaned content length ≤ 50. -/
theorem claim1_counterexample :
    (parseSchwartzFile exC1).map (fun m => (m.sourceWork, m.content.length)) =
      [((("schwartz").toList), 21)] ∧ ¬ (50 < 21) := by
  constructor
  · unfold exC1
    rw [parseSchwartz_skipPre]
    decide
  · decide

/-- C2 counterexample: a section header seen inside BOOK ONE is inherited by
a record started right after the BOOK TWO header: the book branch never
resets `currentSection`, so the record's section is `The Heavenly Court`
rather than the empty string the claim requires. -/
theorem claim2_counterexample :
    (parseSchwartzFile exC2).map (fun m => (m.book, m.sectionLabel)) =
      [((("BOOK TWO").toList), (("The Heavenly Court").toList))] ∧
    (("The Heavenly Court").toList) ≠ ([] : L) := by
  constructor
  · unfold exC2
    rw [parseSchwartz_skipPre]
    decide
  · decide

set_option maxRecDepth 40000 in
/-- C4 counterexample: in the Ginzberg segmenter a line consisting solely of
the lower-case Roman numeral `iv` is appended to the open record's content
(the Roman-numeral pattern is case-sensitive), so it does contribute text. -/
theorem claim4_counterexample :
    (parseGinzbergFile exC4 1).map (fun m => m.content) =
      [(("At that time the great sea was stirred and all the creatures of the deep were gathered to behold the wonder that had come to pass. iv").toList)] ∧
    (parseGinzbergFile exC4 1).map (fun m => isInfixB ((" iv").toList) m.content) = [true] := by
  constructor
  · decide
  · decide

set_option maxRecDepth 40000 in
/-- C5 counterexample: a Ginzberg input whose content-start search finds no
marker still produces a record: the source never returns early in that case
and simply scans the file from line 0. -/
theorem claim5_counterexample :
    ginzbergMarkerFound exC5 = false ∧ parseGinzbergFile exC5 1 ≠ [] := by
  constructor
  · decide
  · decide

set_option maxRecDepth 40000 in
/-- C8 counterexample: the Ginzberg segmenter never calls fixOcrErrors, so the
OCR misread `COD` survives into the finalized content of a Source-B record. -/
theorem claim8_counterexample :
    (parseGinzbergFile exC8 1).map (fun m => isInfixB (("COD").toList) m.content) = [true] := by
  decide

/-- C2 amended: the book-header branch flushes the record, clears it, enters
`seeking` and updates the book label, but leaves the section label exactly as
it was (the source never resets `currentSection` there). -/
theorem claim2_amended (st : StA) (line : L) (sub : Option L) :
    (bookApply st line sub).sectionLabel = st.sectionLabel ∧
    (bookApply st line sub).myth = none ∧
    (bookApply st line sub).mode = AMode.seeking ∧
    (bookApply st line sub).buffer = [] := by
  unfold bookApply
  exact ⟨rfl, rfl, rfl, rfl⟩

/-- C5 amended: a missing Schwartz marker yields zero records; a missing
Ginzberg marker performs no early return -- the segmenter scans the whole
file from line 0 and can still produce records. -/
theorem claim5_amended :
    (∀ c, schwartzMarkerFound c = false → parseSchwartzFile c = []) ∧
    (∀ c v, ginzbergMarkerFound c = false →
      parseGinzbergFile c v =
        (loopG (Nat.toDigits 10 v) ((splitOnC nlC c).map trimL) initB 0).map finalizeG) := by
  constructor
  · intro c h
    unfold parseSchwartzFile schwartzDrafts
    unfold schwartzMarkerFound at h
    cases hd : dropToBookOne (((splitOnC nlC c).map trimL).drop 6000) with
    | none => simp only [hd, List.map_nil]
    | some sfx => rw [hd] at h; simp at h
  · intro c v h
    unfold parseGinzbergFile ginzbergDrafts
    unfold ginzbergMarkerFound at h
    cases hd : findGStartAux (((splitOnC nlC c).map trimL).getD 399 [])
        (((splitOnC nlC c).map trimL).drop 400) with
    | none => simp only [hd]
    | some sfx => rw [hd] at h; simp at h

set_option maxRecDepth 40000 in
/-- C5 amended witness: the theorem applied to the empty Schwartz input and to
a concrete marker-less Ginzberg input. -/
theorem claim5_amended_witness :
    (schwartzMarkerFound [] = false ∧ parseSchwartzFile [] = []) ∧
    (ginzbergMarkerFound exC4 = false ∧
      parseGinzbergFile exC4 1 =
        (loopG (Nat.toDigits 10 1) ((splitOnC nlC exC4).map trimL) initB 0).map finalizeG) :=
  ⟨⟨by decide, claim5_amended.1 [] (by decide)⟩,
   ⟨by decide, claim5_amended.2 exC4 1 (by decide)⟩⟩

theorem romanA_char_not_digit (a : Char)
    (h : (lowChar a = 'i' || lowChar a = 'v' || lowChar a = 'x' || lowChar a = 'l' ||
      lowChar a = 'c') = true) : isDigitC a = false := by
  by_contra hd
  rw [Bool.not_eq_false] at hd
  have h1 : 48 ≤ a.toNat ∧ a.toNat ≤ 57 := by simpa [isDigitC] using hd
  have h2 : lowChar a = a := by
    unfold lowChar
    rw [if_neg]
    simp only [isUpperC, Bool.and_eq_true, decide_eq_true_eq, not_and]
    omega
  rw [h2] at h
  simp only [Bool.or_eq_true, decide_eq_true_eq] at h
  rcases h with (((h | h) | h) | h) | h <;> simp [h] at h1

theorem lowerRoman_char_facts (a : Char)
    (h : (a = 'i' || a = 'v' || a = 'x' || a = 'l' || a = 'c' || a = 'd' || a = 'm') = true) :
    isDigitC a = false ∧ a ≠ 'I' ∧ a ≠ 'V' ∧ upChar a ≠ a ∧ a ≠ '[' := by
  simp only [Bool.or_eq_true, decide_eq_true_eq] at h
  rcases h with (((((h | h) | h) | h) | h) | h) | h <;> subst h <;>
    exact ⟨by decide, by decide, by decide, by decide, by decide⟩

theorem stripFoot_no_bracket (l : L) (h : ∀ c ∈ l, c ≠ '[') : stripFoot l = l := by
  unfold stripFoot
  induction l with
  | nil => rfl
  | cons a as ih =>
    have ha : a ≠ '[' := h a (List.mem_cons_self a as)
    simp only [stripFootGo, if_neg ha]
    exact congrArg (a :: ·) (ih (fun c hc => h c (List.mem_cons_of_mem a hc)))

/-- C4 amended: in Source-A a digits-only or Roman-letter-only (letters
i, v, x, l, c in either case) line is always skipped outright; in Source-B a
digits-only line is skipped, but a line consisting solely of lower-case
Roman-numeral letters fails the (case-sensitive, upper-case-only) chapter
pattern and the section test, and is appended verbatim to an open record's
content buffer. -/
theorem claim4_amended :
    (∀ cur tail st, isDigitsOnly (trimL cur) = true →
      loopA (cur :: tail) st 0 = loopA tail st 0) ∧
    (∀ cur tail st, isRomanA (trimL cur) = true →
      loopA (cur :: tail) st 0 = loopA tail st 0) ∧
    (∀ cur tail st v, isDigitsOnly (trimL cur) = true →
      loopG v (cur :: tail) st 0 = loopG v tail st 0) ∧
    (∀ cur tail st v d, st.myth = some d → lowerRomanOnly (trimL cur) = true →
      loopG v (cur :: tail) st 0 =
        loopG v tail { st with buffer := st.buffer ++ [trimL cur] } 0) := by
  refine ⟨?_, ?_, ?_, ?_⟩
  · intro cur tail st h
    have h0 : (trimL cur).isEmpty = false := by
      have hh := h
      unfold isDigitsOnly at hh
      simp only [Bool.and_eq_true] at hh
      simpa using hh.1
    simp only [loopA, h0, h, Bool.false_eq_true, if_false, if_true]
  · intro cur tail st h
    have hh := h
    unfold isRomanA at hh
    simp only [Bool.and_eq_true] at hh
    obtain ⟨h1, h2⟩ := hh
    have h0 : (trimL cur).isEmpty = false := by simpa using h1
    have hdig : isDigitsOnly (trimL cur) = false := by
      unfold isDigitsOnly
      cases hl : trimL cur with
      | nil => rw [hl] at h0; simp at h0
      | cons a as =>
        rw [hl] at h2
        have ha := List.all_eq_true.mp h2 a (List.mem_cons_self a as)
        have := romanA_char_not_digit a ha
        simp [this]
    simp only [loopA, h0, hdig, h, Bool.false_eq_true, if_false, if_true]
  · intro cur tail st v h
    have h0 : (trimL cur).isEmpty = false := by
      have hh := h
      unfold isDigitsOnly at hh
      simp only [Bool.and_eq_true] at hh
      simpa using hh.1
    simp only [loopG, h0, h, Bool.false_eq_true, if_false, if_true]
  · intro cur tail st v d hm h
    have hh := h
    unfold lowerRomanOnly at hh
    simp only [Bool.and_eq_true] at hh
    obtain ⟨h1, h2⟩ := hh
    have h0 : (trimL cur).isEmpty = false := by simpa using h1
    cases hl : trimL cur with
    | nil => rw [hl] at h0; simp at h0
    | cons a as =>
      rw [hl] at h2
      have hfacts := fun c hc => lowerRoman_char_facts c (List.all_eq_true.mp h2 c hc)
      have ha := hfacts a (List.mem_cons_self a as)
      have hdig : isDigitsOnly (a :: as) = false := by
        unfold isDigitsOnly
        simp [ha.1]
      have hrom : isRomanG (a :: as) = false := by
        unfold isRomanG
        have htw : List.takeWhile (fun c => decide (c = 'I')) (a :: as) = [] := by
          simp [List.takeWhile_cons, ha.2.1]
        rw [htw]
        simp [ha.2.1, ha.2.2.1]
      have hsec : isSectionG (a :: as) = false := by
        unfold isSectionG
        have hne : ¬ ((a :: as) = upperL (a :: as)) := by
          unfold upperL
          simp only [List.map_cons, List.cons.injEq, not_and]
          intro hA
          exact absurd hA.symm ha.2.2.2.1
        simp [hne]
      have hsf : stripFoot (a :: as) = a :: as :=
        stripFoot_no_bracket _ (fun c hc => (hfacts c hc).2.2.2.2)
      simp only [loopG, hl, List.isEmpty_cons, hdig, hrom, hsec, Bool.false_eq_true,
        if_false, false_and, hm, hsf]

/-- C4 amended witness: the four conjuncts applied at concrete lines and
states. -/
theorem claim4_amended_witness :
    loopA ([("42").toList]) initA 0 = loopA [] initA 0 ∧
    loopA ([("xiv").toList]) initA 0 = loopA [] initA 0 ∧
    loopG (("1").toList) ([("42").toList]) initB 0 = loopG (("1").toList) [] initB 0 ∧
    loopG (("1").toList) ([("iv").toList])
        { chapter := [], myth := some { idG := [], title := [], book := [], sourceWork := [] },
          buffer := [], myths := [] } 0 =
      loopG (("1").toList) []
        { chapter := [], myth := some { idG := [], title := [], book := [], sourceWork := [] },
          buffer := [] ++ [trimL (("iv").toList)], myths := [] } 0 :=
  ⟨claim4_amended.1 _ [] initA (by decide),
   claim4_amended.2.1 _ [] initA (by decide),
   claim4_amended.2.2.1 _ [] initB _ (by decide),
   claim4_amended.2.2.2 _ [] _ _ _ rfl (by decide)⟩

/-- Characterisation of the content branch when a record is open and the mode
is `content` or `commentary`: the line is buffered under the (possibly just
switched) mode. -/
theorem contentStep_buffering (st : StA) (d : ADraft) (line : L) (hm : st.myth = some d)
    (hmode : st.mode = AMode.contentM ∨ st.mode = AMode.commentaryM) :
    contentStep st line =
      { st with
        mode := if st.mode = AMode.contentM ∧ st.buffer ≠ [] ∧
            commentarySwitch st.buffer line = true then AMode.commentaryM else st.mode,
        buffer := st.buffer ++ [(if st.mode = AMode.contentM ∧ st.buffer ≠ [] ∧
            commentarySwitch st.buffer line = true then AMode.commentaryM else st.mode,
          line)] } := by
  unfold contentStep
  simp only [hm]
  rw [if_neg (show ¬ (st.mode = AMode.skipM ∨ st.mode = AMode.seeking) by
      rcases hmode with h | h <;> simp [h]),
    if_neg (show ¬ (st.mode = AMode.sourcesM) by rcases hmode with h | h <;> simp [h])]

/-- C6: with a record open and mode `content`, processing a line through the
content branch switches to `commentary` exactly when the buffered content
length exceeds 300, the line starts with an analytical lead-in phrase, and it
contains no double-quote character and neither the substring `said` nor
`spoke`; the line itself is buffered under the resulting mode.  Once the mode
is `commentary` the content branch keeps it `commentary` and buffers every
line as commentary, and the content branch never switches any mode back to
`content`. -/
theorem claim6_commentary_switch (st : StA) (line : L) :
    (st.myth.isSome = true → st.mode = AMode.contentM →
      (((contentStep st line).mode = AMode.commentaryM) ↔
        (300 < sumLen st.buffer ∧ isLead line = true ∧ line.contains '"' = false ∧
         isInfixB (("said").toList) line = false ∧ isInfixB (("spoke").toList) line = false)) ∧
      (contentStep st line).buffer = st.buffer ++ [((contentStep st line).mode, line)]) ∧
    (st.myth.isSome = true → st.mode = AMode.commentaryM →
      (contentStep st line).mode = AMode.commentaryM ∧
      (contentStep st line).buffer = st.buffer ++ [(AMode.commentaryM, line)]) ∧
    ((contentStep st line).mode = AMode.contentM → st.mode = AMode.contentM) := by
  refine ⟨?_, ?_, ?_⟩
  · intro hsome hmode
    obtain ⟨d, hm⟩ := Option.isSome_iff_exists.mp hsome
    rw [contentStep_buffering st d line hm (Or.inl hmode)]
    simp only [hmode, true_and]
    refine ⟨?_, by trivial⟩
    by_cases hc : st.buffer ≠ [] ∧ commentarySwitch st.buffer line = true
    · rw [if_pos hc]
      have hcs := hc.2
      unfold commentarySwitch at hcs
      simp only [Bool.and_eq_true, decide_eq_true_eq, Bool.not_eq_true',
        Bool.not_eq_true] at hcs
      exact iff_of_true rfl ⟨hcs.1.1.1.1, hcs.1.1.1.2, hcs.1.1.2, hcs.1.2, hcs.2⟩
    · rw [if_neg hc]
      refine iff_of_false (by simp) ?_
      intro ⟨hlen, hlead, hq, hsaid, hspoke⟩
      apply hc
      refine ⟨?_, ?_⟩
      · intro hnil
        rw [hnil] at hlen
        exact absurd hlen (by decide)
      · unfold commentarySwitch
        simp only [Bool.and_eq_true, decide_eq_true_eq, Bool.not_eq_true',
          Bool.not_eq_true]
        exact ⟨⟨⟨⟨hlen, hlead⟩, hq⟩, hsaid⟩, hspoke⟩
  · intro hsome hmode
    obtain ⟨d, hm⟩ := Option.isSome_iff_exists.mp hsome
    rw [contentStep_buffering st d line hm (Or.inr hmode)]
    simp only [hmode, reduceCtorEq, false_and, if_false]
    exact ⟨by trivial, by trivial⟩
  · intro hres
    unfold contentStep at hres
    cases hm : st.myth with
    | none => simp only [hm] at hres; exact hres
    | some d =>
      simp only [hm] at hres
      by_cases h1 : st.mode = AMode.skipM ∨ st.mode = AMode.seeking
      · rw [if_pos h1] at hres
        exact hres
      · rw [if_neg h1] at hres
        by_cases h2 : st.mode = AMode.sourcesM
        · rw [if_pos h2] at hres
          exact hres
        · rw [if_neg h2] at hres
          simp only at hres
          by_cases h3 : st.mode = AMode.contentM ∧ st.buffer ≠ [] ∧
              commentarySwitch st.buffer line = true
          · rw [if_pos h3] at hres
            exact absurd hres (by simp)
          · rw [if_neg h3] at hres
            exact hres

set_option maxRecDepth 40000 in
/-- C6 witness: a concrete state with 301 buffered characters and a lead-in
line makes the switch fire. -/
theorem claim6_witness :
    (contentStep
      { book := [], sectionLabel := [],
        myth := some { idA := [], number := 1, title := [], book := [], sectionLabel := [],
                       sources := [] },
        buffer := [(AMode.contentM, List.replicate 301 'a')], mode := AMode.contentM,
        myths := [] }
      (("This myth is about light").toList)).mode = AMode.commentaryM :=
  ((claim6_commentary_switch
      { book := [], sectionLabel := [],
        myth := some { idA := [], number := 1, title := [], book := [], sectionLabel := [],
                       sources := [] },
        buffer := [(AMode.contentM, List.replicate 301 'a')], mode := AMode.contentM,
        myths := [] }
      (("This myth is about light").toList)).1 rfl rfl).1.mpr (by decide)

theorem flushA_inv (st : StA) (h : ∀ m ∈ st.myths, 50 < m.content.length) :
    ∀ m ∈ flushA st, 50 < m.content.length := by
  intro m hm
  unfold flushA at hm
  cases hmy : st.myth with
  | none => rw [hmy] at hm; exact h m hm
  | some d =>
    simp only [hmy] at hm
    split at hm
    · rcases List.mem_append.mp hm with h1 | h2
      · exact h m h1
      · rw [List.mem_singleton] at h2
        subst h2
        simpa using by assumption
    · exact h m hm

theorem flushB_inv (st : StB) (h : ∀ m ∈ st.myths, 100 < m.content.length) :
    ∀ m ∈ flushB st, 100 < m.content.length := by
  intro m hm
  unfold flushB at hm
  cases hmy : st.myth with
  | none => rw [hmy] at hm; exact h m hm
  | some d =>
    simp only [hmy] at hm
    split at hm
    · exact h m hm
    · split at hm
      · rcases List.mem_append.mp hm with h1 | h2
        · exact h m h1
        · rw [List.mem_singleton] at h2
          subst h2
          simpa using by assumption
      · exact h m hm

theorem contentStep_myths (st : StA) (line : L) : (contentStep st line).myths = st.myths := by
  unfold contentStep
  repeat' split
  all_goals rfl

set_option maxHeartbeats 2000000 in
theorem loopA_len (ls : List L) : ∀ (st : StA) (k : Nat),
    (∀ m ∈ st.myths, 50 < m.content.length) →
    ∀ m ∈ loopA ls st k, 50 < m.content.length := by
  induction ls with
  | nil =>
    intro st k h m hm
    exact flushA_inv st h m (by simpa [loopA] using hm)
  | cons cur tail ih =>
    intro st k h m hm
    cases k with
    | succ j =>
      simp only [loopA] at hm
      exact ih st j h m hm
    | zero =>
      simp only [loopA] at hm
      repeat' split at hm
      all_goals
        first
          | exact ih _ _ h m hm
          | exact ih _ _ (fun m' hm' => h m' (by simpa using hm')) m hm
          | exact ih _ _ (fun m' hm' => flushA_inv st h m' hm') m hm
          | exact ih _ _ (fun m' hm' => flushA_inv st h m' (by simpa using hm')) m hm
          | exact ih _ _ (fun m' hm' => h m' (by rwa [contentStep_myths] at hm')) m hm

theorem loopG_buffer_myths (st : StB) (l : L) :
    ({ st with buffer := st.buffer ++ [l] } : StB).myths = st.myths := rfl

set_option maxHeartbeats 2000000 in
theorem loopG_len (vol : L) (ls : List L) : ∀ (st : StB) (k : Nat),
    (∀ m ∈ st.myths, 100 < m.content.length) →
    ∀ m ∈ loopG vol ls st k, 100 < m.content.length := by
  induction ls with
  | nil =>
    intro st k h m hm
    exact flushB_inv st h m (by simpa [loopG] using hm)
  | cons cur tail ih =>
    intro st k h m hm
    cases k with
    | succ j =>
      simp only [loopG] at hm
      exact ih st j h m hm
    | zero =>
      simp only [loopG] at hm
      repeat' split at hm
      all_goals
        first
          | exact ih _ _ h m hm
          | exact ih _ _ (fun m' hm' => h m' (by simpa using hm')) m hm
          | exact ih _ _ (fun m' hm' => flushB_inv st h m' hm') m hm

/-- C1 amended: every output record arises by finalizing a draft whose
pre-cleanText content length strictly exceeds the source minimum (50 for
schwartz, 100 for ginzberg); the finalized content itself may be shorter,
since the filter runs before cleanText. -/
theorem claim1_amended :
    (∀ c m, m ∈ parseSchwartzFile c →
      ∃ d, d ∈ schwartzDrafts c ∧ 50 < d.content.length ∧ m = finalizeA d) ∧
    (∀ c v m, m ∈ parseGinzbergFile c v →
      ∃ d, d ∈ ginzbergDrafts c v ∧ 100 < d.content.length ∧ m = finalizeG d) := by
  constructor
  · intro c m hm
    unfold parseSchwartzFile at hm
    obtain ⟨d, hd, hfd⟩ := List.mem_map.mp hm
    refine ⟨d, hd, ?_, hfd.symm⟩
    simp only [schwartzDrafts] at hd
    split at hd
    · exact absurd hd (by simp)
    · exact loopA_len _ initA 0 (by intro m' hm'; exact absurd hm' (by simp [initA])) d hd
  · intro c v m hm
    unfold parseGinzbergFile at hm
    obtain ⟨d, hd, hfd⟩ := List.mem_map.mp hm
    refine ⟨d, hd, ?_, hfd.symm⟩
    simp only [ginzbergDrafts] at hd
    split at hd
    · exact loopG_len _ _ initB 0 (by intro m' hm'; exact absurd hm' (by simp [initB])) d hd
    · exact loopG_len _ _ initB 0 (by intro m' hm'; exact absurd hm' (by simp [initB])) d hd

set_option maxRecDepth 400000 in
set_option maxHeartbeats 2000000 in
/-- C1 amended witness: the two conjuncts applied to concrete inputs whose
parses contain one record each. -/
theorem claim1_amended_witness :
    ((parseSchwartzFile exC1w).headD ⟨[], none, [], [], [], [], [], [], [], [], []⟩
        ∈ parseSchwartzFile exC1w ∧
      ∃ d, d ∈ schwartzDrafts exC1w ∧ 50 < d.content.length ∧
        (parseSchwartzFile exC1w).headD ⟨[], none, [], [], [], [], [], [], [], [], []⟩ =
          finalizeA d) ∧
    ((parseGinzbergFile exC4 1).headD ⟨[], none, [], [], [], [], [], [], [], [], []⟩
        ∈ parseGinzbergFile exC4 1 ∧
      ∃ d, d ∈ ginzbergDrafts exC4 1 ∧ 100 < d.content.length ∧
        (parseGinzbergFile exC4 1).headD ⟨[], none, [], [], [], [], [], [], [], [], []⟩ =
          finalizeG d) := by
  have hx : parseSchwartzFile exC1w =
      (match dropToBookOne ((splitOnC nlC
          (("BOOK ONE\n1. AAA\naaaa bbbb cccc dddd eeee ffff gggg hhhh iiii jjjj kkkk").toList)).map
          trimL) with
       | none => []
       | some suffix => loopA suffix initA 0).map finalizeA := by
    unfold exC1w
    exact parseSchwartz_skipPre _
  have hmem : (parseSchwartzFile exC1w).headD ⟨[], none, [], [], [], [], [], [], [], [], []⟩
      ∈ parseSchwartzFile exC1w := by
    rw [hx]
    decide
  have hmem2 : (parseGinzbergFile exC4 1).headD ⟨[], none, [], [], [], [], [], [], [], [], []⟩
      ∈ parseGinzbergFile exC4 1 := by
    decide
  exact ⟨⟨hmem, claim1_amended.1 exC1w _ hmem⟩, ⟨hmem2, claim1_amended.2 exC4 1 _ hmem2⟩⟩

theorem flushA_prov (st : StA)
    (hbuf : ∀ e ∈ st.buffer, ∃ l, e.2 = fixOcrErrors l)
    (h : ∀ m ∈ st.myths, ∃ ps, (∀ x ∈ ps, ∃ l, x = fixOcrErrors l) ∧ m.content = joinSp ps) :
    ∀ m ∈ flushA st, ∃ ps, (∀ x ∈ ps, ∃ l, x = fixOcrErrors l) ∧ m.content = joinSp ps := by
  intro m hm
  unfold flushA at hm
  cases hmy : st.myth with
  | none => rw [hmy] at hm; exact h m hm
  | some d =>
    simp only [hmy] at hm
    split at hm
    · rcases List.mem_append.mp hm with h1 | h2
      · exact h m h1
      · rw [List.mem_singleton] at h2
        subst h2
        refine ⟨(st.buffer.filter (fun e => e.1 = AMode.contentM)).map (fun e => e.2), ?_, rfl⟩
        intro x hx
        obtain ⟨e, he, hxe⟩ := List.mem_map.mp hx
        exact hxe ▸ hbuf e (List.mem_filter.mp he).1
    · exact h m hm

theorem contentStep_buffer (st : StA) (line : L) :
    ∀ e ∈ (contentStep st line).buffer, e ∈ st.buffer ∨ e.2 = line := by
  intro e he
  unfold contentStep at he
  cases hmy : st.myth with
  | none => rw [hmy] at he; exact Or.inl he
  | some d =>
    simp only [hmy] at he
    split at he
    · exact Or.inl he
    · split at he
      · exact Or.inl he
      · rcases List.mem_append.mp he with h1 | h2
        · exact Or.inl h1
        · rw [List.mem_singleton] at h2
          subst h2
          exact Or.inr rfl

set_option maxHeartbeats 2000000 in
theorem loopA_prov (ls : List L) : ∀ (st : StA) (k : Nat),
    (∀ e ∈ st.buffer, ∃ l, e.2 = fixOcrErrors l) →
    (∀ m ∈ st.myths, ∃ ps, (∀ x ∈ ps, ∃ l, x = fixOcrErrors l) ∧ m.content = joinSp ps) →
    ∀ m ∈ loopA ls st k, ∃ ps, (∀ x ∈ ps, ∃ l, x = fixOcrErrors l) ∧ m.content = joinSp ps := by
  induction ls with
  | nil =>
    intro st k hbuf h m hm
    exact flushA_prov st hbuf h m (by simpa [loopA] using hm)
  | cons cur tail ih =>
    intro st k hbuf h m hm
    cases k with
    | succ j =>
      simp only [loopA] at hm
      exact ih st j hbuf h m hm
    | zero =>
      simp only [loopA] at hm
      repeat' split at hm
      all_goals
        first
          | exact ih _ _ hbuf h m hm
          | exact ih _ _ (by intro e he; simp [bookApply] at he)
              (fun m' hm' => flushA_prov st hbuf h m' (by simpa [bookApply] using hm')) m hm
          | exact ih _ _ (by intro e he; simp at he)
              (fun m' hm' => flushA_prov st hbuf h m' (by simpa using hm')) m hm
          | exact ih _ _ (fun e he => hbuf e (by simpa using he))
              (fun m' hm' => h m' (by simpa using hm')) m hm
          | exact ih _ _ (fun e he => (contentStep_buffer st _ e he).elim
                (fun h1 => hbuf e h1) (fun h2 => ⟨trimL cur, by rw [h2]⟩))
              (fun m' hm' => h m' (by rwa [contentStep_myths] at hm')) m hm

set_option maxRecDepth 100000 in
set_option maxHeartbeats 2000000 in
/-- C8 amended: every Source-A draft content is a space-join of lines that
have passed through fixOcrErrors, so in a concrete Schwartz run the misread
`COD` is rewritten to `GOD`; the Source-B segmenter never calls fixOcrErrors
and the same misread survives into a concrete Ginzberg record verbatim. -/
theorem claim8_amended :
    (∀ c m, m ∈ schwartzDrafts c →
      ∃ ps, (∀ x ∈ ps, ∃ l, x = fixOcrErrors l) ∧ m.content = joinSp ps) ∧
    (parseSchwartzFile exC8s).map (fun m =>
      (isInfixB (("COD").toList) m.content, isInfixB (("GOD").toList) m.content)) =
      [(false, true)] ∧
    (parseGinzbergFile exC8 1).map (fun m => isInfixB (("COD").toList) m.content) = [true] := by
  refine ⟨?_, ?_, ?_⟩
  · intro c m hm
    simp only [schwartzDrafts] at hm
    split at hm
    · exact absurd hm (by simp)
    · exact loopA_prov _ initA 0 (by intro e he; simp [initA] at he)
        (by intro m' hm'; exact absurd hm' (by simp [initA])) m hm
  · unfold exC8s
    rw [parseSchwartz_skipPre]
    decide
  · decide

set_option maxRecDepth 400000 in
set_option maxHeartbeats 2000000 in
/-- C8 amended witness: the provenance conjunct applied to a concrete record
of a concrete Schwartz parse. -/
theorem claim8_amended_witness :
    ((schwartzDrafts exC1w).headD ⟨[], none, [], [], [], [], [], [], [], [], []⟩
        ∈ schwartzDrafts exC1w) ∧
    ∃ ps, (∀ x ∈ ps, ∃ l, x = fixOcrErrors l) ∧
      ((schwartzDrafts exC1w).headD ⟨[], none, [], [], [], [], [], [], [], [], []⟩).content =
        joinSp ps := by
  have hx : schwartzDrafts exC1w =
      (match dropToBookOne ((splitOnC nlC
          (("BOOK ONE\n1. AAA\naaaa bbbb cccc dddd eeee ffff gggg hhhh iiii jjjj kkkk").toList)).map
          trimL) with
       | none => []
       | some suffix => loopA suffix initA 0) := by
    unfold exC1w
    exact schwartzDrafts_skipPre _
  have hmem : (schwartzDrafts exC1w).headD ⟨[], none, [], [], [], [], [], [], [], [], []⟩
      ∈ schwartzDrafts exC1w := by
    rw [hx]
    decide
  exact ⟨hmem, claim8_amended.1 exC1w _ hmem⟩

theorem bump_keys_map (m : List (L × Nat)) (k : L) (_h : m.any (fun p => p.1 = k) = true) :
    (m.map (fun p => if p.1 = k then (p.1, p.2 + 1) else p)).map (fun p => p.1) =
      m.map (fun p => p.1) := by
  rw [List.map_map]
  apply List.map_congr_left
  intro p _
  by_cases hp : p.1 = k <;> simp [hp]

theorem bump_keys (m : List (L × Nat)) (k k' : L) :
    (k' ∈ (bump m k).map (fun p => p.1) ↔ k' ∈ m.map (fun p => p.1) ∨ k' = k) := by
  unfold bump
  split
  · next hany =>
    rw [bump_keys_map m k hany]
    constructor
    · exact Or.inl
    · rintro (h | rfl)
      · exact h
      · obtain ⟨p, hp, hpk⟩ := List.any_eq_true.mp hany
        simp only [decide_eq_true_eq] at hpk
        exact List.mem_map.mpr ⟨p, hp, hpk⟩
  · rw [List.map_append]
    simp [List.mem_append]
  
theorem bump_nodup (m : List (L × Nat)) (k : L)
    (h : (m.map (fun p => p.1)).Nodup) : ((bump m k).map (fun p => p.1)).Nodup := by
  unfold bump
  split
  · next hany => rw [bump_keys_map m k hany]; exact h
  · next hany =>
    rw [List.map_append]
    simp only [List.map_cons, List.map_nil]
    rw [List.nodup_append]
    refine ⟨h, by simp, ?_⟩
    intro a ha hb
    simp only [List.mem_singleton] at hb
    subst hb
    obtain ⟨p, hp, hpk⟩ := List.mem_map.mp ha
    exact hany (List.any_eq_true.mpr ⟨p, hp, by simp [hpk]⟩)

theorem bump_pos (m : List (L × Nat)) (k : L) (h : ∀ p ∈ m, 0 < p.2) :
    ∀ p ∈ bump m k, 0 < p.2 := by
  intro p hp
  unfold bump at hp
  split at hp
  · obtain ⟨q, hq, hpq⟩ := List.mem_map.mp hp
    by_cases hqk : q.1 = k
    · rw [if_pos hqk] at hpq
      rw [← hpq]
      simp
    · rw [if_neg hqk] at hpq
      rw [← hpq]
      exact h q hq
  · rcases List.mem_append.mp hp with h1 | h2
    · exact h p h1
    · rw [List.mem_singleton] at h2
      subst h2
      simp

theorem foldl_bump_keys (l : List L) : ∀ (acc : List (L × Nat)) (k : L),
    (k ∈ (l.foldl bump acc).map (fun p => p.1) ↔ k ∈ acc.map (fun p => p.1) ∨ k ∈ l) := by
  induction l with
  | nil => simp
  | cons a t ih =>
    intro acc k
    rw [List.foldl_cons, ih (bump acc a) k, bump_keys]
    simp only [List.mem_cons]
    tauto

theorem foldl_bump_nodup (l : List L) : ∀ acc, (acc.map (fun p => p.1)).Nodup →
    ((l.foldl bump acc).map (fun p => p.1)).Nodup := by
  induction l with
  | nil => intro acc h; exact h
  | cons a t ih => intro acc h; exact ih (bump acc a) (bump_nodup acc a h)

theorem foldl_bump_pos (l : List L) : ∀ acc, (∀ p ∈ acc, 0 < p.2) →
    ∀ p ∈ l.foldl bump acc, 0 < p.2 := by
  induction l with
  | nil => intro acc h; exact h
  | cons a t ih => intro acc h; exact ih (bump acc a) (bump_pos acc a h)

theorem statsThemes_aux_keys (ms : List Myth) : ∀ (acc : List (L × Nat)) (k : L),
    (k ∈ ((ms.foldl (fun acc m => m.themes.foldl bump acc) acc).map (fun p => p.1)) ↔
      k ∈ acc.map (fun p => p.1) ∨ ∃ m ∈ ms, k ∈ m.themes) := by
  induction ms with
  | nil => simp
  | cons m t ih =>
    intro acc k
    rw [List.foldl_cons, ih, foldl_bump_keys]
    simp only [List.mem_cons]
    constructor
    · rintro ((h | h) | ⟨m', hm', hk⟩)
      · exact Or.inl h
      · exact Or.inr ⟨m, Or.inl rfl, h⟩
      · exact Or.inr ⟨m', Or.inr hm', hk⟩
    · rintro (h | ⟨m', hm' | hm', hk⟩)
      · exact Or.inl (Or.inl h)
      · subst hm'; exact Or.inl (Or.inr hk)
      · exact Or.inr ⟨m', hm', hk⟩

theorem statsThemes_keys (ms : List Myth) (k : L) :
    (k ∈ (statsThemes ms).map (fun p => p.1) ↔ ∃ m ∈ ms, k ∈ m.themes) := by
  unfold statsThemes
  rw [statsThemes_aux_keys]
  simp

theorem statsThemes_nodup (ms : List Myth) : ((statsThemes ms).map (fun p => p.1)).Nodup := by
  unfold statsThemes
  have : ∀ (t : List Myth) (acc : List (L × Nat)), (acc.map (fun p => p.1)).Nodup →
      ((t.foldl (fun acc m => m.themes.foldl bump acc) acc).map (fun p => p.1)).Nodup := by
    intro t
    induction t with
    | nil => intro acc h; exact h
    | cons m tt ih => intro acc h; exact ih _ (foldl_bump_nodup _ _ h)
  exact this ms [] (by simp)

theorem statsThemes_pos (ms : List Myth) : ∀ p ∈ statsThemes ms, 0 < p.2 := by
  unfold statsThemes
  have : ∀ (t : List Myth) (acc : List (L × Nat)), (∀ p ∈ acc, 0 < p.2) →
      ∀ p ∈ t.foldl (fun acc m => m.themes.foldl bump acc) acc, 0 < p.2 := by
    intro t
    induction t with
    | nil => intro acc h; exact h
    | cons m tt ih => intro acc h; exact ih _ (foldl_bump_pos _ _ h)
  exact this ms [] (by simp)

theorem find_of_keys_nodup (m : List (L × Nat)) (p : L × Nat)
    (hn : (m.map (fun q => q.1)).Nodup) (hp : p ∈ m) :
    m.find? (fun q => q.1 = p.1) = some p := by
  induction m with
  | nil => cases hp
  | cons a t ih =>
    rw [List.map_cons, List.nodup_cons] at hn
    rcases List.mem_cons.mp hp with rfl | hmem
    · simp [List.find?_cons]
    · have hne : (a.1 = p.1) = False := by
        simp only [eq_iff_iff, iff_false]
        intro he
        exact hn.1 (he ▸ List.mem_map.mpr ⟨p, hmem, rfl⟩)
      rw [List.find?_cons]
      simp only [hne, decide_False]
      exact ih hn.2 hmem

theorem themeCount_eq (ms : List Myth) (p : L × Nat) (hp : p ∈ statsThemes ms) :
    themeCount ms p.1 = p.2 := by
  unfold themeCount
  rw [find_of_keys_nodup (statsThemes ms) p (statsThemes_nodup ms) hp]

theorem statsBooks_aux_keys (ms : List Myth) : ∀ (acc : List (L × Nat)) (k : L),
    (k ∈ ((ms.foldl (fun acc m => if m.book ≠ [] then bump acc m.book else acc) acc).map
        (fun p => p.1)) ↔
      k ∈ acc.map (fun p => p.1) ∨ ∃ m ∈ ms, m.book = k ∧ k ≠ []) := by
  induction ms with
  | nil => simp
  | cons m t ih =>
    intro acc k
    rw [List.foldl_cons, ih]
    by_cases hb : m.book ≠ []
    · rw [if_pos hb, bump_keys]
      constructor
      · rintro ((h | rfl) | ⟨m', hm', hk⟩)
        · exact Or.inl h
        · exact Or.inr ⟨m, List.mem_cons_self m t, rfl, hb⟩
        · exact Or.inr ⟨m', List.mem_cons_of_mem m hm', hk⟩
      · rintro (h | ⟨m', hm', hk, hne⟩)
        · exact Or.inl (Or.inl h)
        · rcases List.mem_cons.mp hm' with rfl | hmem
          · exact Or.inl (Or.inr hk.symm)
          · exact Or.inr ⟨m', hmem, hk, hne⟩
    · rw [if_neg hb]
      rw [not_not] at hb
      constructor
      · rintro (h | ⟨m', hm', hk⟩)
        · exact Or.inl h
        · exact Or.inr ⟨m', List.mem_cons_of_mem m hm', hk⟩
      · rintro (h | ⟨m', hm', hk, hne⟩)
        · exact Or.inl h
        · rcases List.mem_cons.mp hm' with rfl | hmem
          · exact absurd (hb ▸ hk) (Ne.symm hne)
          · exact Or.inr ⟨m', hmem, hk, hne⟩

theorem statsBooks_keys (ms : List Myth) (k : L) :
    (k ∈ (statsBooks ms).map (fun p => p.1) ↔ k ≠ [] ∧ ∃ m ∈ ms, m.book = k) := by
  unfold statsBooks
  rw [statsBooks_aux_keys]
  simp only [List.map_nil, List.not_mem_nil, false_or]
  constructor
  · rintro ⟨m, hm, hk, hne⟩
    exact ⟨hne, m, hm, hk⟩
  · rintro ⟨hne, m, hm, hk⟩
    exact ⟨m, hm, hk, hne⟩

theorem lexLe_total : ∀ a b : L, lexLe a b = true ∨ lexLe b a = true := by
  intro a
  induction a with
  | nil => intro b; left; rfl
  | cons x xs ih =>
    intro b
    cases b with
    | nil => right; rfl
    | cons y ys =>
      by_cases h1 : x.toNat < y.toNat
      · left
        simp [lexLe, h1]
      · by_cases h2 : y.toNat < x.toNat
        · right
          simp [lexLe, h2]
        · rcases ih ys with h | h
          · left
            simp [lexLe, h1, h2, h]
          · right
            simp [lexLe, h1, h2, h]

theorem lexLe_trans : ∀ a b c : L, lexLe a b = true → lexLe b c = true → lexLe a c = true := by
  intro a
  induction a with
  | nil => intro b c _ _; rfl
  | cons x xs ih =>
    intro b c hab hbc
    cases b with
    | nil => simp [lexLe] at hab
    | cons y ys =>
      cases c with
      | nil => simp [lexLe] at hbc
      | cons z zs =>
        simp only [lexLe] at hab hbc ⊢
        by_cases h1 : x.toNat < y.toNat
        · by_cases h2 : y.toNat < z.toNat
          · simp [Nat.lt_trans h1 h2]
          · by_cases h3 : z.toNat < y.toNat
            · rw [if_neg h2, if_pos h3] at hbc
              exact absurd hbc (by simp)
            · have hyz : y.toNat = z.toNat := by omega
              simp [hyz ▸ h1]
        · by_cases h4 : y.toNat < x.toNat
          · rw [if_neg h1, if_pos h4] at hab
            exact absurd hab (by simp)
          · have hxy : x.toNat = y.toNat := by omega
            by_cases h2 : y.toNat < z.toNat
            · simp [hxy ▸ h2]
            · by_cases h3 : z.toNat < y.toNat
              · rw [if_neg h2, if_pos h3] at hbc
                exact absurd hbc (by simp)
              · have hyz : y.toNat = z.toNat := by omega
                rw [if_neg h1, if_neg h4] at hab
                rw [if_neg h2, if_neg h3] at hbc
                have hgoal : ¬ x.toNat < z.toNat := by omega
                have hgoal2 : ¬ z.toNat < x.toNat := by omega
                rw [if_neg hgoal, if_neg hgoal2]
                exact ih ys zs hab hbc

instance : IsTotal (L × Nat) (fun p q => q.2 ≤ p.2) := ⟨fun a b => Nat.le_total b.2 a.2⟩

instance : IsTrans (L × Nat) (fun p q => q.2 ≤ p.2) := ⟨fun _ _ _ h1 h2 => Nat.le_trans h2 h1⟩

instance : IsTotal L (fun a b => lexLe a b = true) := ⟨lexLe_total⟩

instance : IsTrans L (fun a b => lexLe a b = true) := ⟨fun a b c => lexLe_trans a b c⟩

/-- C7: for any pipeline run, filterOptions.themes is exactly the set of
themes occurring in at least one record (equivalently, the themes with
nonzero count), ordered by descending count; filterOptions.books is exactly
the set of non-empty book labels occurring in records, sorted
lexicographically. -/
theorem claim7_filter_options (sa g1 g2 : L) :
    (∀ t, t ∈ filterThemes (allMyths sa g1 g2) ↔
      ∃ m ∈ allMyths sa g1 g2, t ∈ m.themes) ∧
    (∀ t, t ∈ filterThemes (allMyths sa g1 g2) → 0 < themeCount (allMyths sa g1 g2) t) ∧
    (filterThemes (allMyths sa g1 g2)).Pairwise
      (fun a b => themeCount (allMyths sa g1 g2) b ≤ themeCount (allMyths sa g1 g2) a) ∧
    (∀ b, b ∈ filterBooks (allMyths sa g1 g2) ↔
      (b ≠ [] ∧ ∃ m ∈ allMyths sa g1 g2, m.book = b)) ∧
    (filterBooks (allMyths sa g1 g2)).Pairwise (fun a b => lexLe a b = true) := by
  set ms := allMyths sa g1 g2 with hms
  refine ⟨?_, ?_, ?_, ?_, ?_⟩
  · intro t
    unfold filterThemes
    rw [← statsThemes_keys ms t]
    constructor
    · intro h
      obtain ⟨p, hp, hpt⟩ := List.mem_map.mp h
      exact List.mem_map.mpr ⟨p, (List.mem_insertionSort _).mp hp, hpt⟩
    · intro h
      obtain ⟨p, hp, hpt⟩ := List.mem_map.mp h
      exact List.mem_map.mpr ⟨p, (List.mem_insertionSort _).mpr hp, hpt⟩
  · intro t ht
    unfold filterThemes at ht
    obtain ⟨p, hp, hpt⟩ := List.mem_map.mp ht
    have hmem : p ∈ statsThemes ms := (List.mem_insertionSort _).mp hp
    rw [← hpt, themeCount_eq ms p hmem]
    exact statsThemes_pos ms p hmem
  · unfold filterThemes
    rw [List.pairwise_map]
    have hs := List.sorted_insertionSort (fun p q : L × Nat => q.2 ≤ p.2) (statsThemes ms)
    unfold List.Sorted at hs
    refine hs.imp_of_mem ?_
    intro p q hpmem hqmem hle
    have hp : p ∈ statsThemes ms := (List.mem_insertionSort _).mp hpmem
    have hq : q ∈ statsThemes ms := (List.mem_insertionSort _).mp hqmem
    rw [themeCount_eq ms p hp, themeCount_eq ms q hq]
    exact hle
  · intro b
    unfold filterBooks
    rw [List.mem_insertionSort, statsBooks_keys]
  · unfold filterBooks
    exact List.sorted_insertionSort (fun a b : L => lexLe a b = true) _

theorem head_dropWhile_false (p : Char → Bool) (l : L) :
    ∀ c, (l.dropWhile p).head? = some c → p c = false := by
  intro c hc
  have := List.head?_dropWhile_not p l
  rw [hc] at this
  exact this

theorem dropWhile_eq_self_of_head (l : L) (h : ∀ c, l.head? = some c → isWS c = false) :
    l.dropWhile isWS = l := by
  cases l with
  | nil => rfl
  | cons a t => exact List.dropWhile_cons_of_neg (by simp [h a rfl])

theorem trim_head (s : L) : ∀ c, (trimL s).head? = some c → isWS c = false := by
  intro c hc
  unfold trimL at hc
  rw [List.head?_reverse] at hc
  obtain ⟨t, ht⟩ := List.dropWhile_suffix (l := (s.dropWhile isWS).reverse) isWS
  have hA : ((s.dropWhile isWS).reverse).getLast? =
      (((s.dropWhile isWS).reverse.dropWhile isWS).getLast?).or t.getLast? := by
    conv_lhs => rw [← ht]
    exact List.getLast?_append
  rw [hc] at hA
  have hA2 : ((s.dropWhile isWS).reverse).getLast? = some c := by rw [hA]; rfl
  rw [List.getLast?_reverse] at hA2
  exact head_dropWhile_false isWS s c hA2

theorem trim_idem (s : L) : trimL (trimL s) = trimL s := by
  have h1 : (trimL s).dropWhile isWS = trimL s :=
    dropWhile_eq_self_of_head _ (trim_head s)
  show ((((trimL s).dropWhile isWS).reverse.dropWhile isWS)).reverse = trimL s
  rw [h1]
  have h2 : (trimL s).reverse = ((s.dropWhile isWS).reverse.dropWhile isWS) := by
    unfold trimL
    rw [List.reverse_reverse]
  rw [h2]
  rw [dropWhile_eq_self_of_head _ (head_dropWhile_false isWS _)]
  rw [← h2, List.reverse_reverse]

theorem mem_trimL (s : L) (c : Char) (h : c ∈ trimL s) : c ∈ s := by
  unfold trimL at h
  rw [List.mem_reverse] at h
  have h2 := (List.dropWhile_sublist (l := (s.dropWhile isWS).reverse) isWS).subset h
  rw [List.mem_reverse] at h2
  exact (List.dropWhile_sublist isWS).subset h2

theorem chain_trimL {R : Char → Char → Prop} (s : L) (h : List.Chain' R s) :
    List.Chain' R (trimL s) := by
  have c1 : List.Chain' R (s.dropWhile isWS) := h.suffix (List.dropWhile_suffix _)
  have c2 : List.Chain' (flip R) ((s.dropWhile isWS).reverse) := List.chain'_reverse.mpr c1
  have c3 : List.Chain' (flip R) (((s.dropWhile isWS).reverse).dropWhile isWS) :=
    c2.suffix (List.dropWhile_suffix _)
  exact List.chain'_reverse.mpr c3

theorem normWSGo_ws (s : L) : ∀ (b : Bool) (c : Char), c ∈ normWSGo b s → isWS c = true →
    c = ' ' := by
  induction s with
  | nil => intro b c h; simp [normWSGo] at h
  | cons a r ih =>
    intro b c h hws
    unfold normWSGo at h
    by_cases ha : isWS a = true
    · rw [if_pos ha] at h
      cases b with
      | true => exact ih true c h hws
      | false =>
        rcases List.mem_cons.mp h with rfl | hmem
        · rfl
        · exact ih true c hmem hws
    · rw [if_neg ha] at h
      rcases List.mem_cons.mp h with rfl | hmem
      · exact absurd hws ha
      · exact ih false c hmem hws

theorem normWSGo_head_true (s : L) : ∀ c, (normWSGo true s).head? = some c →
    isWS c = false := by
  induction s with
  | nil => intro c h; simp [normWSGo] at h
  | cons a r ih =>
    intro c h
    unfold normWSGo at h
    by_cases ha : isWS a = true
    · rw [if_pos ha] at h
      exact ih c h
    · rw [if_neg ha] at h
      simp only [List.head?_cons, Option.some.injEq] at h
      subst h
      simpa using ha

theorem normWSGo_chain (s : L) : ∀ b, List.Chain' noWW (normWSGo b s) := by
  induction s with
  | nil => intro b; simp [normWSGo]
  | cons a r ih =>
    intro b
    unfold normWSGo
    by_cases ha : isWS a = true
    · rw [if_pos ha]
      cases b with
      | true =>
        rw [if_pos rfl]
        exact ih true
      | false =>
        rw [if_neg (by simp)]
        rw [List.chain'_cons']
        refine ⟨?_, ih true⟩
        intro h hh
        intro hcon
        rw [normWSGo_head_true r h hh] at hcon
        exact absurd hcon.2 (by simp)
    · rw [if_neg ha]
      rw [List.chain'_cons']
      refine ⟨?_, ih false⟩
      intro h _
      intro hcon
      exact absurd hcon.1 (by simp [ha])

theorem replaceAllGo_nil_sublist (p : L) (s : L) : ∀ k, List.Sublist (replaceAllGo p [] k s) s := by
  induction s with
  | nil => intro k; cases k <;> simp [replaceAllGo]
  | cons c rest ih =>
    intro k
    cases k with
    | succ j => exact (ih j).cons c
    | zero =>
      unfold replaceAllGo
      split
      · simpa using (ih _).cons c
      · exact (ih 0).cons₂ c

theorem ra2_head_aux : ∀ (n : Nat) (s : L), s.length ≤ n → List.Chain' noWW s →
    ∀ c, (replaceAllGo ([Char.ofNat 45, ' ']) [] 0 s).head? = some c → isWS c = true →
    ∃ c0, s.head? = some c0 ∧ isWS c0 = true := by
  intro n
  induction n with
  | zero =>
    intro s hl _ c hc _
    cases s with
    | nil => simp [replaceAllGo] at hc
    | cons a rest => simp at hl
  | succ m ih =>
    intro s hl hch c hc hcws
    cases s with
    | nil => simp [replaceAllGo] at hc
    | cons a rest =>
      by_cases hp : ([Char.ofNat 45, ' '] : L) ≠ [] ∧
          ([Char.ofNat 45, ' '] : L).isPrefixOf (a :: rest) = true
      · obtain ⟨-, hpre⟩ := hp
        cases rest with
        | nil => simp [List.isPrefixOf] at hpre
        | cons b rest2 =>
          simp only [List.isPrefixOf, List.cons_append, Bool.and_eq_true, beq_iff_eq] at hpre
          obtain ⟨hab, hbs, -⟩ := hpre
          subst hab
          subst hbs
          rw [show (replaceAllGo ([Char.ofNat 45, ' ']) [] 0
              (Char.ofNat 45 :: ' ' :: rest2)) = replaceAllGo ([Char.ofNat 45, ' ']) [] 0 rest2
            from by rw [replaceAllGo]; rw [if_pos (by simp [List.isPrefixOf])]; rfl] at hc
          obtain ⟨c0, hc0, hc0ws⟩ := ih rest2 (by simp at hl; omega) hch.tail.tail c hc hcws
          have hrel := (List.chain'_cons'.mp hch.tail).1 c0 hc0
          exact absurd ⟨by decide, hc0ws⟩ hrel
      · rw [replaceAllGo, if_neg hp] at hc
        simp only [List.head?_cons, Option.some.injEq] at hc
        exact ⟨c, by simp [hc], hcws⟩

theorem ra2_chain_aux : ∀ (n : Nat) (s : L), s.length ≤ n → List.Chain' noWW s →
    (∀ c ∈ s, isWS c = true → c = ' ') →
    List.Chain' (fun a b => noWW a b ∧ noDS a b)
      (replaceAllGo ([Char.ofNat 45, ' ']) [] 0 s) := by
  intro n
  induction n with
  | zero =>
    intro s hl _ _
    cases s with
    | nil => simp [replaceAllGo]
    | cons a rest => simp at hl
  | succ m ih =>
    intro s hl hch hws
    cases s with
    | nil => simp [replaceAllGo]
    | cons a rest =>
      by_cases hp : ([Char.ofNat 45, ' '] : L) ≠ [] ∧
          ([Char.ofNat 45, ' '] : L).isPrefixOf (a :: rest) = true
      · obtain ⟨-, hpre⟩ := hp
        cases rest with
        | nil => simp [List.isPrefixOf] at hpre
        | cons b rest2 =>
          simp only [List.isPrefixOf, Bool.and_eq_true, beq_iff_eq] at hpre
          obtain ⟨hab, hbs, -⟩ := hpre
          subst hab
          subst hbs
          rw [show (replaceAllGo ([Char.ofNat 45, ' ']) [] 0
              (Char.ofNat 45 :: ' ' :: rest2)) = replaceAllGo ([Char.ofNat 45, ' ']) [] 0 rest2
            from by rw [replaceAllGo]; rw [if_pos (by simp [List.isPrefixOf])]; rfl]
          exact ih rest2 (by simp at hl; omega) hch.tail.tail
            (fun c hc hw => hws c (by simp [hc]) hw)
      · rw [replaceAllGo, if_neg hp]
        rw [List.chain'_cons']
        refine ⟨?_, ih rest (by simp at hl; omega) hch.tail
          (fun c hc hw => hws c (List.mem_cons_of_mem a hc) hw)⟩
        intro h hh
        constructor
        · rintro ⟨hwsa, hwsh⟩
          obtain ⟨c0, hc0, hc0ws⟩ := ra2_head_aux m rest (by simp at hl; omega) hch.tail h hh hwsh
          exact (List.chain'_cons'.mp hch).1 c0 hc0 ⟨hwsa, hc0ws⟩
        · rintro ⟨ha45, hhsp⟩
          subst hhsp
          obtain ⟨c0, hc0, hc0ws⟩ := ra2_head_aux m rest (by simp at hl; omega) hch.tail _ hh
            (by decide)
          have hc0mem : c0 ∈ rest := List.mem_of_mem_head? hc0
          have hc0sp : c0 = ' ' := hws c0 (List.mem_cons_of_mem a hc0mem) hc0ws
          apply hp
          refine ⟨by simp, ?_⟩
          cases rest with
          | nil => simp at hc0
          | cons b rest2 =>
            simp only [List.head?_cons, Option.some.injEq] at hc0
            have hb : b = ' ' := hc0.trans hc0sp
            simp [List.isPrefixOf, ha45, hb]

theorem ra2_id_go : ∀ s : L, List.Chain' noDS s →
    replaceAllGo ([Char.ofNat 45, ' ']) [] 0 s = s := by
  intro s
  induction s with
  | nil => intro _; rfl
  | cons a rest ih =>
    intro h
    rw [replaceAllGo, if_neg]
    · exact congrArg (a :: ·) (ih h.tail)
    · rintro ⟨-, hpre⟩
      cases rest with
      | nil => simp [List.isPrefixOf] at hpre
      | cons b rest2 =>
        simp only [List.isPrefixOf, Bool.and_eq_true, beq_iff_eq] at hpre
        exact (List.chain'_cons'.mp h).1 b rfl ⟨hpre.1.symm, hpre.2.1.symm⟩

theorem replaceAllGo_id_head_free (pc : Char) (pr r : L) : ∀ s : L, (∀ c ∈ s, c ≠ pc) →
    replaceAllGo (pc :: pr) r 0 s = s := by
  intro s
  induction s with
  | nil => intro _; rfl
  | cons a rest ih =>
    intro h
    rw [replaceAllGo, if_neg]
    · exact congrArg (a :: ·) (ih (fun c hc => h c (List.mem_cons_of_mem a hc)))
    · rintro ⟨-, hpre⟩
      simp only [List.isPrefixOf, Bool.and_eq_true, beq_iff_eq] at hpre
      exact h a (List.mem_cons_self a rest) hpre.1.symm

theorem normWSGo_id (s : L) : (∀ c ∈ s, isWS c = true → c = ' ') → List.Chain' noWW s →
    (normWSGo false s = s ∧
      ((∀ c, s.head? = some c → isWS c = false) → normWSGo true s = s)) := by
  induction s with
  | nil => intro _ _; exact ⟨rfl, fun _ => rfl⟩
  | cons a rest ih =>
    intro hws hch
    have ihr := ih (fun c hc hw => hws c (List.mem_cons_of_mem a hc) hw) hch.tail
    by_cases ha : isWS a = true
    · have ha2 : a = ' ' := hws a (List.mem_cons_self a rest) ha
      have hresthead : ∀ c, rest.head? = some c → isWS c = false := by
        intro c hc
        have hrel := (List.chain'_cons'.mp hch).1 c hc
        by_contra hcc
        rw [Bool.not_eq_false] at hcc
        exact hrel ⟨ha, hcc⟩
      constructor
      · unfold normWSGo
        rw [if_pos ha, if_neg (by simp)]
        rw [ha2]
        exact congrArg (' ' :: ·) (ihr.2 hresthead)
      · intro hhead
        exact absurd (hhead a rfl) (by simp [ha])
    · constructor
      · unfold normWSGo
        rw [if_neg ha]
        exact congrArg (a :: ·) ihr.1
      · intro _
        unfold normWSGo
        rw [if_neg ha]
        exact congrArg (a :: ·) ihr.1

theorem cleanText_ws (s : L) : ∀ c ∈ cleanText s, isWS c = true → c = ' ' := by
  intro c hc hw
  unfold cleanText at hc
  have h1 := mem_trimL _ c hc
  unfold replaceAll at h1
  have h2 := (replaceAllGo_nil_sublist ([Char.ofNat 45, ' ']) _ 0).subset h1
  unfold normWS at h2
  exact normWSGo_ws _ false c h2 hw

theorem cleanText_chain (s : L) :
    List.Chain' (fun a b => noWW a b ∧ noDS a b) (cleanText s) := by
  unfold cleanText
  apply chain_trimL
  unfold replaceAll
  apply ra2_chain_aux (normWS (replaceAllGo ([Char.ofNat 13, Char.ofNat 10])
    ([Char.ofNat 10]) 0 s)).length _ le_rfl
  · unfold normWS
    exact normWSGo_chain _ false
  · intro c hc hw
    unfold normWS at hc
    exact normWSGo_ws _ false c hc hw

/-- C10: cleanText is idempotent -- applying the line-ending normalisation,
whitespace collapsing, hyphenation-artifact removal and trim a second time
leaves the result unchanged. -/
theorem claim10_cleanText_idempotent (s : L) : cleanText (cleanText s) = cleanText s := by
  have hws := cleanText_ws s
  have hch := cleanText_chain s
  have hchW : List.Chain' noWW (cleanText s) := hch.imp (fun a b h => h.1)
  have hchD : List.Chain' noDS (cleanText s) := hch.imp (fun a b h => h.2)
  show trimL (replaceAll ([Char.ofNat 45, ' ']) []
      (normWS (replaceAll ([Char.ofNat 13, Char.ofNat 10]) ([Char.ofNat 10])
        (cleanText s)))) = cleanText s
  have h1 : replaceAll ([Char.ofNat 13, Char.ofNat 10]) ([Char.ofNat 10]) (cleanText s) =
      cleanText s := by
    unfold replaceAll
    apply replaceAllGo_id_head_free
    intro c hc hceq
    subst hceq
    have := hws _ hc (by decide)
    exact absurd this (by decide)
  rw [h1]
  have h2 : normWS (cleanText s) = cleanText s := by
    unfold normWS
    exact (normWSGo_id _ hws hchW).1
  rw [h2]
  have h3 : replaceAll ([Char.ofNat 45, ' ']) [] (cleanText s) = cleanText s := by
    unfold replaceAll
    exact ra2_id_go _ hchD
  rw [h3]
  exact trim_idem _
